import Mathlib

/-!
Verification of the conventional-commits parser (cocogitto/conventional_commits_parser_rs).

Text is modelled as `List Char` (abbreviated `Str`).  The typed commit model,
the commit-type classification (`CommitType::from` in src/commit.rs), the
breaking-change test (`Footer::is_breaking_change`), the serializer
(`impl ToString for ConventionalCommit`) and the error classifier
(`impl From<PestError<Rule>> for ParseError` in src/error.rs) are translated
directly from the Rust sources.  The pest grammar file (grammar.pest) and the
newer entry points (`parse_footers`, `parse_body`) are not part of the sources,
so the grammar-driven parsing pipeline is modelled from the specification
(spec sections 4.1, 4.2, 6); every such definition carries a
`Modelled from the spec:` doc comment.
-/

/-- Decidable equality of `Except` results, used to evaluate the model on
concrete inputs. -/
instance {ε α : Type} [DecidableEq ε] [DecidableEq α] : DecidableEq (Except ε α)
  | Except.ok a, Except.ok b =>
    if h : a = b then isTrue (by rw [h])
    else isFalse (by intro hh; cases hh; exact h rfl)
  | Except.ok _, Except.error _ => isFalse (by intro h; cases h)
  | Except.error _, Except.ok _ => isFalse (by intro h; cases h)
  | Except.error e, Except.error f =>
    if h : e = f then isTrue (by rw [h])
    else isFalse (by intro hh; cases hh; exact h rfl)

namespace ConvCommit

/-- Text is a list of characters. -/
abbrev Str := List Char

/-- Commit types, from the `CommitType` enum in src/commit.rs. -/
inductive CommitType where
  | Feature
  | BugFix
  | Chore
  | Revert
  | Performances
  | Documentation
  | Style
  | Refactor
  | Test
  | Build
  | Ci
  | Custom (s : Str)
deriving DecidableEq

/-- Footer separator kinds, from the `Separator` enum used by the test suite
(tests/footers.rs, tests/specification.rs): `Colon` is the default `": "` form,
`Hash` the `" #"` form and `ColonWithNewLine` the `":" + newline` form.
Modelled from the spec: the `Separator` definition itself is not in src/. -/
inductive Separator where
  | Colon
  | Hash
  | ColonWithNewLine
deriving DecidableEq

/-- A commit footer: the `Footer` struct of src/commit.rs extended with the
separator kind recorded by the newer test suite (`token_separator` field,
tests/footers.rs); the spec data model lists `{ token, content, separator-kind }`. -/
structure Footer where
  token : Str
  content : Str
  token_separator : Separator := Separator.Colon
deriving DecidableEq

/-- `Footer::is_breaking_change` from src/commit.rs: exact, case-sensitive
comparison with the two breaking-change tokens. -/
def Footer.is_breaking_change (f : Footer) : Bool :=
  f.token = "BREAKING CHANGE".data || f.token = "BREAKING-CHANGE".data

/-- The aggregate commit model, `ConventionalCommit` in src/commit.rs. -/
structure ConventionalCommit where
  commit_type : CommitType
  scope : Option Str
  summary : Str
  body : Option Str
  footers : List Footer
  is_breaking_change : Bool
deriving DecidableEq

/-- ASCII lower-casing of a single character, mirroring Rust
`char::to_ascii_lowercase`. -/
def asciiLowerChar (c : Char) : Char :=
  if 65 ≤ c.toNat ∧ c.toNat ≤ 90 then Char.ofNat (c.toNat + 32) else c

/-- ASCII lower-casing of a string, mirroring Rust `str::to_ascii_lowercase`. -/
def asciiLower (s : Str) : Str := s.map asciiLowerChar

/-- `impl From<&str> for CommitType` from src/commit.rs: the token is ASCII
lower-cased, then compared with the standard set; the fallback binds the
lower-cased text, so `Custom` holds the lower-cased token. -/
def CommitType.fromStr (commit_type : Str) : CommitType :=
  let l := asciiLower commit_type
  if l = "feat".data then CommitType.Feature
  else if l = "fix".data then CommitType.BugFix
  else if l = "chore".data then CommitType.Chore
  else if l = "revert".data then CommitType.Revert
  else if l = "perf".data then CommitType.Performances
  else if l = "docs".data then CommitType.Documentation
  else if l = "style".data then CommitType.Style
  else if l = "refactor".data then CommitType.Refactor
  else if l = "test".data then CommitType.Test
  else if l = "build".data then CommitType.Build
  else if l = "ci".data then CommitType.Ci
  else CommitType.Custom l

/-- `impl AsRef<str> for CommitType` from src/commit.rs. -/
def CommitType.asRef : CommitType → Str
  | CommitType.Feature => "feat".data
  | CommitType.BugFix => "fix".data
  | CommitType.Chore => "chore".data
  | CommitType.Revert => "revert".data
  | CommitType.Performances => "perf".data
  | CommitType.Documentation => "docs".data
  | CommitType.Style => "style".data
  | CommitType.Refactor => "refactor".data
  | CommitType.Test => "test".data
  | CommitType.Build => "build".data
  | CommitType.Ci => "ci".data
  | CommitType.Custom key => key

/-- `impl ToString for ConventionalCommit` from src/commit.rs: type, optional
parenthesized scope, a `!` only when the commit is breaking and no footer is a
breaking-change footer, `": "` plus the summary, an optional body after a blank
line, and every footer on its own line in the `token: content` form. -/
def ConventionalCommit.to_string (c : ConventionalCommit) : Str :=
  c.commit_type.asRef
  ++ (match c.scope with
      | some s => '(' :: (s ++ [')'])
      | none => [])
  ++ (if c.is_breaking_change && !(c.footers.any Footer.is_breaking_change)
      then ['!'] else [])
  ++ (':' :: ' ' :: c.summary)
  ++ (match c.body with
      | some b => '\n' :: '\n' :: b
      | none => [])
  ++ (if c.footers.isEmpty then [] else ['\n'])
  ++ (c.footers.map (fun f => '\n' :: (f.token ++ ':' :: ' ' :: f.content))).flatten

/-- The grammar rules referenced by the error classifier of src/error.rs,
together with the surrounding productions named by the spec (section 4.1).
The pest-generated `Rule` enum itself is not in src/. -/
inductive Rule where
  | message
  | summary
  | commit_type
  | scope
  | scope_content
  | no_parenthesis
  | no_whitespace
  | breaking_change_mark
  | type_separator
  | whitespace_terminal
  | summary_content
  | blank_line
  | body
  | footers
  | footer
  | footer_token
  | token_separator
  | footer_content
deriving DecidableEq

/-- A pest error variant: either a parsing error carrying the expected
(`positives`) and unexpected (`negatives`) rule sets, or a custom error.
The failure position is not modelled. -/
inductive PestErrorVariant where
  | ParsingError (positives : List Rule) (negatives : List Rule)
  | CustomError (msg : Str)
deriving DecidableEq

/-- A pest error, reduced to its variant (positions are not modelled). -/
structure PestError where
  variant : PestErrorVariant
deriving DecidableEq

/-- The `ParseErrorKind` enum from src/error.rs.  Note that the source has
eight variants: the seven listed by the spec plus
`DescriptionStartingWithUppercase`. -/
inductive ParseErrorKind where
  | MissingSeparator
  | MissingWhiteSpace
  | UnexpectedParenthesis
  | UnexpectedWhitespaceOrNewLine
  | MalformedScope
  | MalformedOrUnexpectedFooterSeparator
  | DescriptionStartingWithUppercase
  | Other
deriving DecidableEq

/-- The `ParseError` struct from src/error.rs. -/
structure ParseError where
  inner : PestError
  kind : ParseErrorKind
deriving DecidableEq

/-- `impl From<PestError<Rule>> for ParseError` from src/error.rs: a
first-match-wins cascade over the expected-rule set; a custom error is always
`Other`. -/
def ParseError.fromPest (pest_error : PestError) : ParseError :=
  let kind :=
    match pest_error.variant with
    | PestErrorVariant.ParsingError positives _ =>
      if positives.contains Rule.type_separator then
        ParseErrorKind.MissingSeparator
      else if positives.contains Rule.no_parenthesis then
        ParseErrorKind.UnexpectedParenthesis
      else if positives.contains Rule.no_whitespace then
        ParseErrorKind.UnexpectedWhitespaceOrNewLine
      else if positives.contains Rule.whitespace_terminal then
        ParseErrorKind.MissingWhiteSpace
      else if positives.contains Rule.scope_content then
        ParseErrorKind.MalformedScope
      else if positives.contains Rule.token_separator then
        ParseErrorKind.MalformedOrUnexpectedFooterSeparator
      else if positives.contains Rule.summary_content then
        ParseErrorKind.DescriptionStartingWithUppercase
      else ParseErrorKind.Other
    | PestErrorVariant.CustomError _ => ParseErrorKind.Other
  { inner := pest_error, kind := kind }

/-! ## The grammar-driven parsing pipeline

Modelled from the spec: the grammar file (grammar.pest) is not among the
sources, so the productions of spec section 4.1, the footer separator
resolver of section 4.2 and the body/footer absorption policy of the
section 4.2 edge case are modelled here as executable functions. -/

/-- Modelled from the spec: the whitespace characters recognised by the
grammar (space, tab, newline, carriage return). -/
def isWsp (c : Char) : Bool :=
  c = ' ' || c = '\t' || c = '\n' || c = '\r'

/-- Modelled from the spec: a commit-type character — non-whitespace and
none of `(`, `:`; `!` is also excluded so the optional breaking marker can
follow the type token. -/
def typeChar (c : Char) : Bool :=
  !(isWsp c) && c ≠ '(' && c ≠ ':' && c ≠ '!'

/-- Modelled from the spec: a scope-content character — scope content forbids
whitespace, newlines and parentheses. -/
def scopeChar (c : Char) : Bool :=
  !(isWsp c) && c ≠ '(' && c ≠ ')'

/-- Modelled from the spec: a footer-token character — footer tokens are
non-whitespace words (hyphens allowed); `:` and `#` delimit separators and
cannot occur in a token. -/
def tokenChar (c : Char) : Bool :=
  !(isWsp c) && c ≠ ':' && c ≠ '#'

/-- Shorthand for a pest parsing error with the given expected set. -/
def perr (positives : List Rule) : PestError :=
  { variant := PestErrorVariant.ParsingError positives [] }

/-- The parts of a matched summary line: type token, raw scope content when a
scope element was present (possibly empty), breaking marker, summary content. -/
structure SummaryAst where
  ctype : Str
  scopeRaw : Option Str
  marker : Bool
  content : Str
deriving DecidableEq

/-- Modelled from the spec: after type, scope and breaking marker, the summary
requires the `:` separator, the single mandatory space, and non-empty summary
content running to the end of the line.  On failure, the expected set records
which productions were still viable at that point. -/
def finishSummary (t : Str) (sc : Option Str) (marker : Bool) (r : Str) :
    Except PestError (SummaryAst × Str) :=
  match r with
  | ':' :: ' ' :: r2 =>
    if r2.takeWhile (fun c => c ≠ '\n') = [] then
      Except.error (perr [Rule.summary_content])
    else
      Except.ok (⟨t, sc, marker, r2.takeWhile (fun c => c ≠ '\n')⟩,
        r2.dropWhile (fun c => c ≠ '\n'))
  | ':' :: _ => Except.error (perr [Rule.whitespace_terminal])
  | _ =>
    Except.error (perr
      (if marker then [Rule.type_separator]
       else if sc.isSome then [Rule.breaking_change_mark, Rule.type_separator]
       else [Rule.scope, Rule.breaking_change_mark, Rule.type_separator]))

/-- Modelled from the spec: the optional zero-width breaking marker `!`. -/
def summaryMark (t : Str) (sc : Option Str) (r : Str) :
    Except PestError (SummaryAst × Str) :=
  match r with
  | '!' :: r2 => finishSummary t sc true r2
  | _ => finishSummary t sc false r

/-- Modelled from the spec: the scope element after its opening `(`.  Scope
content characters run to the first forbidden character: a closing `)` ends
the scope, a nested `(` fails the `no-nested-parenthesis` rule, whitespace or
a newline fails the `no-whitespace` rule, and end of input fails the
scope-content rule. -/
def parseScopePart (t : Str) (r2 : Str) : Except PestError (SummaryAst × Str) :=
  match r2.dropWhile scopeChar with
  | ')' :: r3 => summaryMark t (some (r2.takeWhile scopeChar)) r3
  | '(' :: _ => Except.error (perr [Rule.no_parenthesis])
  | _ :: _ => Except.error (perr [Rule.no_whitespace])
  | [] => Except.error (perr [Rule.scope_content])

/-- Modelled from the spec (grammar production `summary`): commit type,
optional parenthesized scope, optional `!`, separator, space, summary
content.  Returns the summary parts and the unconsumed rest (empty or
starting at the first newline). -/
def parseSummary (s : Str) : Except PestError (SummaryAst × Str) :=
  if s.takeWhile typeChar = [] then Except.error (perr [Rule.commit_type])
  else
    match s.dropWhile typeChar with
    | '(' :: r2 => parseScopePart (s.takeWhile typeChar) r2
    | r1 => summaryMark (s.takeWhile typeChar) none r1

/-- Split a text into its lines at `\n` (an empty text has one empty line;
the result is never the empty list). -/
def splitNl : Str → List Str
  | [] => [[]]
  | c :: r =>
    if c = '\n' then [] :: splitNl r
    else (c :: (splitNl r).headI) :: (splitNl r).tail

/-- Join lines with newline characters (the inverse of `splitNl`). -/
def joinNl (ls : List Str) : Str := (ls.intersperse ['\n']).flatten

/-- Modelled from the spec (section 4.2): recognise one of the three footer
separator forms at the point following a footer token: `": "`, `":"` at the
very end of the line (the colon-newline block form), or `" #"`.  Returns the
separator kind and the remainder of the line. -/
def sepSplit (r : Str) : Option (Separator × Str) :=
  match r with
  | ':' :: ' ' :: rest => some (Separator.Colon, rest)
  | [':'] => some (Separator.ColonWithNewLine, [])
  | ' ' :: '#' :: rest => some (Separator.Hash, rest)
  | _ => none

/-- Modelled from the spec: a footer boundary formed by a non-empty word of
footer-token characters immediately followed by a separator form. -/
def wordFooterStart (l : Str) : Option (Str × Separator × Str) :=
  if l.takeWhile tokenChar = [] then none
  else
    match sepSplit (l.dropWhile tokenChar) with
    | some (sep, rest) => some (l.takeWhile tokenChar, sep, rest)
    | none => none

/-- Modelled from the spec: a footer boundary at a line start — either the
literal token `BREAKING CHANGE` or a non-empty word of footer-token
characters, immediately followed by one of the three separator forms.
Returns the token, the separator kind and the rest of the line. -/
def footerStart (l : Str) : Option (Str × Separator × Str) :=
  if l.take 15 = "BREAKING CHANGE".data then
    match sepSplit (l.drop 15) with
    | some (sep, rest) => some ("BREAKING CHANGE".data, sep, rest)
    | none => none
  else wordFooterStart l

/-- An in-progress footer while walking the footer block line by line:
token, separator kind, and the content lines absorbed so far. -/
structure FAcc where
  done : List Footer
  cur : Option (Str × Separator × List Str)
deriving DecidableEq

/-- Close the in-progress footer, joining its absorbed content lines. -/
def pushCur (acc : FAcc) : List Footer :=
  match acc.cur with
  | none => acc.done
  | some (t, sep, segs) =>
    acc.done ++ [{ token := t, content := joinNl segs,
                   token_separator := sep }]

/-- Modelled from the spec (section 4.2): one step of the footer-block walk.
A line that begins a valid token/separator pair starts a new footer (for the
colon-newline form the content starts on the following line); any other line
is absorbed into the content of the footer under construction. -/
def footersStep (acc : FAcc) (l : Str) : FAcc :=
  match footerStart l with
  | some (t, sep, seg) =>
    { done := pushCur acc,
      cur := some (t, sep,
        match sep with
        | Separator.ColonWithNewLine => []
        | _ => [seg]) }
  | none =>
    match acc.cur with
    | some (t, sep, segs) => { acc with cur := some (t, sep, segs ++ [l]) }
    | none => acc

/-- Modelled from the spec: parse a footer block given as a list of lines
whose first line begins a valid footer. -/
def parseFootersLines (ls : List Str) : List Footer :=
  pushCur (ls.foldl footersStep { done := [], cur := none })

/-- Modelled from the spec: the first index `i` such that line `i` is blank
and line `i + 1` begins a valid footer — the boundary between the free-form
body and the footer block. -/
def findBoundary : List Str → Option Nat
  | [] => none
  | [_] => none
  | a :: b :: r =>
    if a = [] ∧ (footerStart b).isSome then some 0
    else (findBoundary (b :: r)).map (fun i => i + 1)

/-- Modelled from the spec (sections 4.1, 4.2): the blocks following the blank
line after the summary.  If the first line begins a valid footer the whole
rest is the footer block; otherwise the body absorbs every line (including
lines that merely resemble footers) up to the first blank line followed by a
valid footer line, and the remaining lines form the footer block.  Returns
the body text (empty when absent) and the footer list. -/
def parseBlocks (r2 : Str) : Str × List Footer :=
  let ls := splitNl r2
  if (footerStart ls.headI).isSome then ([], parseFootersLines ls)
  else
    match findBoundary ls with
    | some i => (joinNl (ls.take i), parseFootersLines (ls.drop (i + 1)))
    | none => (r2, [])

/-- The matched parts of a whole message: summary parts, body text (empty when
no body matched) and footer list. -/
structure MsgAst where
  sum : SummaryAst
  bodyTxt : Str
  footers : List Footer
deriving DecidableEq

/-- Modelled from the spec (grammar production `message`): a summary line,
then optionally one blank line and the body/footer blocks.  A single trailing
newline after the summary is accepted; any other text on the line following
the summary without an intervening blank line is a grammar failure. -/
def parseMessage (s : Str) : Except PestError MsgAst :=
  match parseSummary s with
  | Except.error e => Except.error e
  | Except.ok (sum, rest) =>
    match rest with
    | [] => Except.ok ⟨sum, [], []⟩
    | ['\n'] => Except.ok ⟨sum, [], []⟩
    | '\n' :: '\n' :: r2 =>
      Except.ok ⟨sum, (parseBlocks r2).1, (parseBlocks r2).2⟩
    | _ => Except.error (perr [Rule.blank_line])

/-! ## The parse-tree walker (semantic builder), from src/commit.rs -/

/-- `Default for ConventionalCommit` from src/commit.rs. -/
def defaultCommit : ConventionalCommit :=
  { commit_type := CommitType.Feature, scope := none, summary := [],
    body := none, footers := [], is_breaking_change := false }

/-- `ConventionalCommit::set_scope` from src/commit.rs: the scope is set only
when the scope element's inner content is non-empty. -/
def setScope (c : ConventionalCommit) (raw : Option Str) : ConventionalCommit :=
  match raw with
  | some s => if s = [] then c else { c with scope := some s }
  | none => c

/-- `ConventionalCommit::set_breaking_change` from src/commit.rs: a non-empty
breaking-change mark sets the flag. -/
def setBreakingMark (c : ConventionalCommit) (marker : Bool) : ConventionalCommit :=
  if marker then { c with is_breaking_change := true } else c

/-- `ConventionalCommit::set_commit_body` from src/commit.rs: the body is set
only when non-empty. -/
def setBody (c : ConventionalCommit) (b : Str) : ConventionalCommit :=
  if b = [] then c else { c with body := some b }

/-- `ConventionalCommit::set_footer` from src/commit.rs: a breaking-change
footer forces the flag; the footer is appended in order. -/
def setFooter (c : ConventionalCommit) (f : Footer) : ConventionalCommit :=
  let c1 := if f.is_breaking_change then { c with is_breaking_change := true } else c
  { c1 with footers := c1.footers ++ [f] }

/-- The parse-tree walk of src/lib.rs `parse` and the `set_*` methods of
src/commit.rs, applied to the matched message parts. -/
def buildCommit (m : MsgAst) : ConventionalCommit :=
  let c := defaultCommit
  let c := { c with commit_type := CommitType.fromStr m.sum.ctype }
  let c := setScope c m.sum.scopeRaw
  let c := { c with summary := m.sum.content }
  let c := setBreakingMark c m.sum.marker
  let c := setBody c m.bodyTxt
  m.footers.foldl setFooter c

/-- The public `parse` entry point: grammar match, then the semantic walk;
a grammar failure is classified by `ParseError.fromPest` (src/error.rs). -/
def parse (s : Str) : Except ParseError ConventionalCommit :=
  match parseMessage s with
  | Except.error e => Except.error (ParseError.fromPest e)
  | Except.ok m => Except.ok (buildCommit m)

/-- Modelled from the spec (section 6): `parse_footers` parses only the
footer-block grammar; absent from src/ (only tests/footers.rs calls it). -/
def parse_footers (s : Str) : Except ParseError (List Footer) :=
  match splitNl s with
  | [] => Except.error (ParseError.fromPest (perr [Rule.token_separator]))
  | l0 :: _ =>
    if (footerStart l0).isSome then Except.ok (parseFootersLines (splitNl s))
    else Except.error (ParseError.fromPest (perr [Rule.token_separator]))

/-- Modelled from the spec (section 6): `parse_body` parses only the body
grammar; absent from src/ (only tests/body.rs calls it).  Empty or
whitespace-only input yields no body; input whose first line begins a valid
footer fails with the footer-separator expectation; anything else is returned
verbatim as the body. -/
def parse_body (s : Str) : Except ParseError (Option Str) :=
  if s.all isWsp then Except.ok none
  else if (footerStart (s.takeWhile (fun c => c ≠ '\n'))).isSome then
    Except.error (ParseError.fromPest (perr [Rule.token_separator]))
  else Except.ok (some s)

/-- Footers with their separator kinds all replaced by the colon-space form. -/
def colonSeparators (fs : List Footer) : List Footer :=
  fs.map (fun f => { f with token_separator := Separator.Colon })

/-- A commit with every footer's separator kind replaced by the colon-space
form — the shape produced by re-parsing a serialized commit. -/
def normalizeSeps (c : ConventionalCommit) : ConventionalCommit :=
  { c with footers := colonSeparators c.footers }

/-- The serialized type/scope prefix preceding the optional `!` marker. -/
def typeScopePrefix (c : ConventionalCommit) : Str :=
  c.commit_type.asRef ++
    (match c.scope with
     | some s => '(' :: (s ++ [')'])
     | none => [])

/-- The error kind of a failed parse, when any. -/
def errorKindOf {α : Type} : Except ParseError α → Option ParseErrorKind
  | Except.error e => some e.kind
  | Except.ok _ => none

/-! ## Basic lemmas about the character operations -/

theorem charOfNat_toNat {n : Nat} (h : Nat.isValidChar n) :
    (Char.ofNat n).toNat = n := by
  simp [Char.ofNat, h, Char.ofNatAux, Char.toNat, UInt32.toNat]

theorem asciiLowerChar_toNat_of_upper {c : Char}
    (h : 65 ≤ c.toNat ∧ c.toNat ≤ 90) :
    (asciiLowerChar c).toNat = c.toNat + 32 := by
  unfold asciiLowerChar
  rw [if_pos h]
  exact charOfNat_toNat (Or.inl (by omega))

theorem asciiLowerChar_of_not_upper {c : Char}
    (h : ¬(65 ≤ c.toNat ∧ c.toNat ≤ 90)) : asciiLowerChar c = c := by
  unfold asciiLowerChar
  rw [if_neg h]

theorem asciiLowerChar_idem (c : Char) :
    asciiLowerChar (asciiLowerChar c) = asciiLowerChar c := by
  by_cases h : 65 ≤ c.toNat ∧ c.toNat ≤ 90
  · exact asciiLowerChar_of_not_upper
      (by rw [asciiLowerChar_toNat_of_upper h]; omega)
  · rw [asciiLowerChar_of_not_upper h]
    exact asciiLowerChar_of_not_upper h

theorem asciiLower_idem (s : Str) : asciiLower (asciiLower s) = asciiLower s := by
  unfold asciiLower
  rw [List.map_map]
  exact List.map_congr_left (fun c _ => asciiLowerChar_idem c)

/-! ## C3: the error-classification taxonomy -/

/-- The precedence table of the amended claim: the expected-set rules checked
in order, each paired with the error kind it selects. -/
def precedenceTable : List (Rule × ParseErrorKind) :=
  [(Rule.type_separator, ParseErrorKind.MissingSeparator),
   (Rule.no_parenthesis, ParseErrorKind.UnexpectedParenthesis),
   (Rule.no_whitespace, ParseErrorKind.UnexpectedWhitespaceOrNewLine),
   (Rule.whitespace_terminal, ParseErrorKind.MissingWhiteSpace),
   (Rule.scope_content, ParseErrorKind.MalformedScope),
   (Rule.token_separator, ParseErrorKind.MalformedOrUnexpectedFooterSeparator),
   (Rule.summary_content, ParseErrorKind.DescriptionStartingWithUppercase)]

/-- The classifier described by the amended claim: first-match-wins over the
eight-kind precedence table, `Other` when no listed rule is expected, and
always `Other` for a custom grammar error. -/
def classifySpec (e : PestError) : ParseErrorKind :=
  match e.variant with
  | PestErrorVariant.ParsingError positives _ =>
    ((precedenceTable.find? (fun p => positives.contains p.1)).map Prod.snd).getD
      ParseErrorKind.Other
  | PestErrorVariant.CustomError _ => ParseErrorKind.Other

/-- C3 counterexample: a failure whose expected set is exactly
`{summary_content}` — which contains none of the six rules listed by the
claim — classifies as `DescriptionStartingWithUppercase`, not `Other`,
refuting the claimed seven-kind taxonomy with catch-all `Other`. -/
theorem c3_counterexample :
    (ParseError.fromPest (perr [Rule.summary_content])).kind =
      ParseErrorKind.DescriptionStartingWithUppercase ∧
    ParseErrorKind.DescriptionStartingWithUppercase ≠ ParseErrorKind.Other := by
  decide

/-- C3 (amended): the classifier realises a closed EIGHT-kind taxonomy:
first-match-wins over the precedence order type-separator → MissingSeparator,
no-nested-parenthesis → UnexpectedParenthesis, no-whitespace/newline →
UnexpectedWhitespaceOrNewLine, post-separator whitespace → MissingWhiteSpace,
scope content → MalformedScope, footer token separator →
MalformedOrUnexpectedFooterSeparator, summary content →
DescriptionStartingWithUppercase, otherwise Other; a custom grammar error is
always Other. -/
theorem c3_classifier_amended (e : PestError) :
    (ParseError.fromPest e).kind = classifySpec e := by
  obtain ⟨v⟩ := e
  cases v with
  | CustomError m => rfl
  | ParsingError pos neg =>
    cases h1 : pos.contains Rule.type_separator <;>
    cases h2 : pos.contains Rule.no_parenthesis <;>
    cases h3 : pos.contains Rule.no_whitespace <;>
    cases h4 : pos.contains Rule.whitespace_terminal <;>
    cases h5 : pos.contains Rule.scope_content <;>
    cases h6 : pos.contains Rule.token_separator <;>
    cases h7 : pos.contains Rule.summary_content <;>
    simp_all [ParseError.fromPest, classifySpec, precedenceTable, List.find?]

/-! ## C4: commit-type classification -/

/-- The standard commit-type tokens of src/commit.rs. -/
def standardTokens : List Str :=
  ["feat".data, "fix".data, "chore".data, "revert".data, "perf".data,
   "docs".data, "style".data, "refactor".data, "test".data, "build".data,
   "ci".data]

/-- C4 counterexample: the token `Wip` is outside the standard set, but
`CommitType::from` yields `Custom "wip"` — the lower-cased text, not the
original token text `Wip` as the claim states. -/
theorem c4_counterexample :
    CommitType.fromStr "Wip".data = CommitType.Custom "wip".data ∧
    CommitType.fromStr "Wip".data ≠ CommitType.Custom "Wip".data := by
  decide

/-- A token whose lower-cased form is outside the standard set classifies as
`Custom` of the lower-cased form. -/
theorem fromStr_of_not_standard (s : Str)
    (h : ¬ standardTokens.contains (asciiLower s)) :
    CommitType.fromStr s = CommitType.Custom (asciiLower s) := by
  have n1 : ¬(asciiLower s = "feat".data) := fun e => h (by rw [e]; decide)
  have n2 : ¬(asciiLower s = "fix".data) := fun e => h (by rw [e]; decide)
  have n3 : ¬(asciiLower s = "chore".data) := fun e => h (by rw [e]; decide)
  have n4 : ¬(asciiLower s = "revert".data) := fun e => h (by rw [e]; decide)
  have n5 : ¬(asciiLower s = "perf".data) := fun e => h (by rw [e]; decide)
  have n6 : ¬(asciiLower s = "docs".data) := fun e => h (by rw [e]; decide)
  have n7 : ¬(asciiLower s = "style".data) := fun e => h (by rw [e]; decide)
  have n8 : ¬(asciiLower s = "refactor".data) := fun e => h (by rw [e]; decide)
  have n9 : ¬(asciiLower s = "test".data) := fun e => h (by rw [e]; decide)
  have n10 : ¬(asciiLower s = "build".data) := fun e => h (by rw [e]; decide)
  have n11 : ¬(asciiLower s = "ci".data) := fun e => h (by rw [e]; decide)
  show (if asciiLower s = "feat".data then CommitType.Feature
    else if asciiLower s = "fix".data then CommitType.BugFix
    else if asciiLower s = "chore".data then CommitType.Chore
    else if asciiLower s = "revert".data then CommitType.Revert
    else if asciiLower s = "perf".data then CommitType.Performances
    else if asciiLower s = "docs".data then CommitType.Documentation
    else if asciiLower s = "style".data then CommitType.Style
    else if asciiLower s = "refactor".data then CommitType.Refactor
    else if asciiLower s = "test".data then CommitType.Test
    else if asciiLower s = "build".data then CommitType.Build
    else if asciiLower s = "ci".data then CommitType.Ci
    else CommitType.Custom (asciiLower s)) = CommitType.Custom (asciiLower s)
  rw [if_neg n1, if_neg n2, if_neg n3, if_neg n4, if_neg n5, if_neg n6,
      if_neg n7, if_neg n8, if_neg n9, if_neg n10, if_neg n11]

/-- C4 (amended): classification compares the token lower-cased against the
standard set (`Feat` and `feat` both yield `Feature`), and every token outside
the standard set (in any letter case) yields `Custom` holding the LOWER-CASED
token text, not the original spelling. -/
theorem c4_commit_type_classification :
    (∀ s : Str, CommitType.fromStr s = CommitType.fromStr (asciiLower s)) ∧
    (∀ s : Str, ¬ standardTokens.contains (asciiLower s) →
      CommitType.fromStr s = CommitType.Custom (asciiLower s)) ∧
    CommitType.fromStr "Feat".data = CommitType.Feature ∧
    CommitType.fromStr "feat".data = CommitType.Feature := by
  refine ⟨fun s => ?_, fromStr_of_not_standard, by decide, by decide⟩
  unfold CommitType.fromStr
  rw [asciiLower_idem]

/-- C4 witness: the amended theorem applied to the concrete token `Wip`. -/
theorem c4_witness :
    CommitType.fromStr "Wip".data = CommitType.Custom (asciiLower "Wip".data) :=
  c4_commit_type_classification.2.1 "Wip".data (by decide)

/-! ## C5: footer separator kinds -/

/-- C5: the input `"a-token: v1\nanother-token #v2"` parses to exactly two
footers recording separator kinds colon-space and space-hash respectively,
with contents exactly `v1` and `v2`. -/
theorem c5_footer_separator_kinds :
    parse_footers "a-token: v1\nanother-token #v2".data =
      Except.ok
        [{ token := "a-token".data, content := "v1".data,
           token_separator := Separator.Colon },
         { token := "another-token".data, content := "v2".data,
           token_separator := Separator.Hash }] := by
  decide

/-! ## The semantic builder, characterized -/

/-- Folding `setFooter` appends the footers in order and ors the
breaking-change flag with each footer's breaking-change test. -/
theorem foldl_setFooter (fs : List Footer) (c : ConventionalCommit) :
    List.foldl setFooter c fs =
      { c with footers := c.footers ++ fs,
               is_breaking_change :=
                 c.is_breaking_change || fs.any Footer.is_breaking_change } := by
  induction fs generalizing c with
  | nil => simp
  | cons f fs ih =>
    rw [List.foldl_cons, ih]
    unfold setFooter
    cases hb : f.is_breaking_change <;> simp [hb, Bool.or_assoc]

/-- The walker, in closed form: the commit built from matched message parts. -/
theorem buildCommit_eq (m : MsgAst) :
    buildCommit m =
      { commit_type := CommitType.fromStr m.sum.ctype,
        scope := match m.sum.scopeRaw with
                 | some s => if s = [] then none else some s
                 | none => none,
        summary := m.sum.content,
        body := if m.bodyTxt = [] then none else some m.bodyTxt,
        footers := m.footers,
        is_breaking_change :=
          m.sum.marker || m.footers.any Footer.is_breaking_change } := by
  obtain ⟨⟨ct, sc, mark, content⟩, b, fs⟩ := m
  simp only [buildCommit, defaultCommit, setScope, setBreakingMark, setBody,
    foldl_setFooter]
  cases sc with
  | none => cases mark <;> by_cases hb : b = [] <;> simp [hb]
  | some s =>
    by_cases hs : s = [] <;> cases mark <;> by_cases hb : b = [] <;>
      simp [hs, hb]

/-- A parse succeeds exactly when the grammar matches, and then returns the
built commit. -/
theorem parse_ok_iff {s : Str} {c : ConventionalCommit} :
    parse s = Except.ok c ↔
      ∃ m, parseMessage s = Except.ok m ∧ c = buildCommit m := by
  unfold parse
  cases h : parseMessage s <;> simp [eq_comm]

/-- A successful message match contains a successful summary match. -/
theorem parseMessage_summary {s : Str} {m : MsgAst} :
    parseMessage s = Except.ok m →
    ∃ r, parseSummary s = Except.ok (m.sum, r) := by
  unfold parseMessage
  split
  · intro h; cases h
  · rename_i p sum rest heq
    split
    · intro h; injection h with h2; rw [← h2]; exact ⟨_, heq⟩
    · intro h; injection h with h2; rw [← h2]; exact ⟨_, heq⟩
    · intro h; injection h with h2; rw [← h2]; exact ⟨_, heq⟩
    · intro h; cases h

/-- A summary-grammar failure is the whole parse's failure, classified. -/
theorem parse_error_of_summary {s : Str} {e : PestError}
    (h : parseSummary s = Except.error e) :
    parse s = Except.error (ParseError.fromPest e) := by
  unfold parse parseMessage
  rw [h]

/-- A nested `(` inside a scope fails the summary grammar with the
no-nested-parenthesis expectation. -/
theorem parseSummary_scope_paren (s r2 r3 : Str)
    (ht : s.takeWhile typeChar ≠ [])
    (hdrop : s.dropWhile typeChar = '(' :: r2)
    (hws : r2.dropWhile scopeChar = '(' :: r3) :
    parseSummary s = Except.error (perr [Rule.no_parenthesis]) := by
  simp only [parseSummary]
  rw [if_neg ht, hdrop]
  show parseScopePart (s.takeWhile typeChar) r2 = _
  unfold parseScopePart
  rw [hws]
  rfl

/-- Whitespace or a newline inside a scope fails the summary grammar with the
no-whitespace expectation. -/
theorem parseSummary_scope_wsp (s r2 : Str) (ch : Char) (r3 : Str)
    (ht : s.takeWhile typeChar ≠ [])
    (hdrop : s.dropWhile typeChar = '(' :: r2)
    (hws : r2.dropWhile scopeChar = ch :: r3)
    (hch : isWsp ch = true) :
    parseSummary s = Except.error (perr [Rule.no_whitespace]) := by
  simp only [parseSummary]
  rw [if_neg ht, hdrop]
  show parseScopePart (s.takeWhile typeChar) r2 = _
  unfold parseScopePart
  rw [hws]
  have h1 : ch ≠ ')' := by
    intro e; rw [e] at hch; exact absurd hch (by decide)
  have h2 : ch ≠ '(' := by
    intro e; rw [e] at hch; exact absurd hch (by decide)
  split
  · rename_i heq; injection heq with ha _; exact absurd ha h1
  · rename_i heq; injection heq with ha _; exact absurd ha h2
  · rfl
  · rename_i heq; cases heq

/-! ## C2: the breaking-change flag -/

/-- Whether the summary line of the input carries the `!` breaking marker,
read off the summary grammar match. -/
def summaryMarker (s : Str) : Bool :=
  match parseSummary s with
  | Except.ok (sum, _) => sum.marker
  | Except.error _ => false

/-- C2: for every input on which `parse` succeeds, `is_breaking_change` is
true if and only if the summary line carried the `!` marker or some footer's
token is exactly `BREAKING CHANGE` or exactly `BREAKING-CHANGE`
(case-sensitive); the flag is never true for any other reason. -/
theorem c2_breaking_change_iff (s : Str) (c : ConventionalCommit)
    (h : parse s = Except.ok c) :
    c.is_breaking_change = true ↔
      summaryMarker s = true ∨
      ∃ f ∈ c.footers,
        f.token = "BREAKING CHANGE".data ∨ f.token = "BREAKING-CHANGE".data := by
  rw [parse_ok_iff] at h
  obtain ⟨m, hm, rfl⟩ := h
  obtain ⟨r, hs⟩ := parseMessage_summary hm
  have hmark : summaryMarker s = m.sum.marker := by
    unfold summaryMarker; rw [hs]
  rw [buildCommit_eq, hmark]
  simp [Footer.is_breaking_change, List.any_eq_true]

/-- C2 witness: the theorem applied to `"feat!: x"` (marker only, flag set)
and to a lowercase `breaking change:` footer-like line (no marker, no
breaking footer, flag clear). -/
theorem c2_witness :
    (true = true ↔
      summaryMarker "feat!: x".data = true ∨
      ∃ f ∈ ([] : List Footer),
        f.token = "BREAKING CHANGE".data ∨ f.token = "BREAKING-CHANGE".data) ∧
    ¬(summaryMarker "chore: a\n\nbreaking change: oops".data = true ∨
      ∃ f ∈ ([] : List Footer),
        f.token = "BREAKING CHANGE".data ∨ f.token = "BREAKING-CHANGE".data) := by
  constructor
  · exact c2_breaking_change_iff "feat!: x".data
      { commit_type := CommitType.Feature, scope := none,
        summary := "x".data, body := none, footers := [],
        is_breaking_change := true } (by decide)
  · have h := c2_breaking_change_iff "chore: a\n\nbreaking change: oops".data
      { commit_type := CommitType.Chore, scope := none,
        summary := "a".data, body := some "breaking change: oops".data,
        footers := [], is_breaking_change := false } (by decide)
    exact fun hr => Bool.false_ne_true (h.mpr hr)

/-! ## C6: scope handling -/

/-- C6: an empty scope element yields an absent scope (never the empty-string
scope); a nested parenthesis in scope position fails the whole parse with
`UnexpectedParenthesis` and whitespace or a newline there fails it with
`UnexpectedWhitespaceOrNewLine` — including on the inputs `"feat(): x"`,
`"fix((x): y"` and `"fix(x y): z"`. -/
theorem c6_scope_handling :
    (∀ s c, parse s = Except.ok c → c.scope ≠ some []) ∧
    (∀ s r2 r3 : Str, s.takeWhile typeChar ≠ [] →
      s.dropWhile typeChar = '(' :: r2 →
      r2.dropWhile scopeChar = '(' :: r3 →
      errorKindOf (parse s) = some ParseErrorKind.UnexpectedParenthesis) ∧
    (∀ (s r2 : Str) (ch : Char) (r3 : Str), s.takeWhile typeChar ≠ [] →
      s.dropWhile typeChar = '(' :: r2 →
      r2.dropWhile scopeChar = ch :: r3 → isWsp ch = true →
      errorKindOf (parse s) = some ParseErrorKind.UnexpectedWhitespaceOrNewLine) ∧
    parse "feat(): x".data =
      Except.ok
        { commit_type := CommitType.Feature, scope := none,
          summary := "x".data, body := none, footers := [],
          is_breaking_change := false } ∧
    errorKindOf (parse "fix((x): y".data) =
      some ParseErrorKind.UnexpectedParenthesis ∧
    errorKindOf (parse "fix(x y): z".data) =
      some ParseErrorKind.UnexpectedWhitespaceOrNewLine := by
  refine ⟨?_, ?_, ?_, by decide, by decide, by decide⟩
  · intro s c h
    rw [parse_ok_iff] at h
    obtain ⟨m, hm, rfl⟩ := h
    rw [buildCommit_eq]
    cases hsc : m.sum.scopeRaw with
    | none => simp
    | some sc => by_cases hs : sc = [] <;> simp [hs]
  · intro s r2 r3 ht hdrop hws
    rw [parse_error_of_summary (parseSummary_scope_paren s r2 r3 ht hdrop hws)]
    rfl
  · intro s r2 ch r3 ht hdrop hws hch
    rw [parse_error_of_summary
      (parseSummary_scope_wsp s r2 ch r3 ht hdrop hws hch)]
    rfl

/-- C6 witness: the three universal parts applied to the concrete inputs
`"fix(x): y"`, `"fix((x): y"` and `"fix(x y): z"`. -/
theorem c6_witness :
    ({ commit_type := CommitType.BugFix, scope := some "x".data,
       summary := "y".data, body := none, footers := [],
       is_breaking_change := false } : ConventionalCommit).scope ≠ some [] ∧
    errorKindOf (parse "fix((x): y".data) =
      some ParseErrorKind.UnexpectedParenthesis ∧
    errorKindOf (parse "fix(x y): z".data) =
      some ParseErrorKind.UnexpectedWhitespaceOrNewLine :=
  ⟨c6_scope_handling.1 "fix(x): y".data _ (by decide),
   c6_scope_handling.2.1 "fix((x): y".data "(x): y".data "x): y".data
     (by decide) (by decide) (by decide),
   c6_scope_handling.2.2.1 "fix(x y): z".data "x y): z".data ' ' "y): z".data
     (by decide) (by decide) (by decide) (by decide)⟩

/-! ## C9: the parse_body entry point -/

/-- C9: `parse_body` returns no body for every empty or whitespace-only
input, returns the body text verbatim for every well-formed body (non-blank,
not beginning with footer syntax), and fails with
`MalformedOrUnexpectedFooterSeparator` for every input whose first line
matches footer syntax. -/
theorem c9_parse_body :
    (∀ s : Str, s.all isWsp = true → parse_body s = Except.ok none) ∧
    (∀ s : Str, s.all isWsp = false →
      (footerStart (s.takeWhile (fun c => c ≠ '\n'))).isSome = false →
      parse_body s = Except.ok (some s)) ∧
    (∀ s : Str, s.all isWsp = false →
      (footerStart (s.takeWhile (fun c => c ≠ '\n'))).isSome = true →
      errorKindOf (parse_body s) =
        some ParseErrorKind.MalformedOrUnexpectedFooterSeparator) ∧
    parse_body "".data = Except.ok none ∧
    errorKindOf (parse_body "a-token: this is a token\nanother-token #this is a token with hash separator".data) =
      some ParseErrorKind.MalformedOrUnexpectedFooterSeparator ∧
    parse_body "A body message\nwith multiple lines".data =
      Except.ok (some "A body message\nwith multiple lines".data) := by
  refine ⟨fun s h => ?_, fun s h1 h2 => ?_, fun s h1 h2 => ?_,
    by decide, by decide, by decide⟩
  · unfold parse_body
    rw [if_pos h]
  · unfold parse_body
    rw [if_neg (by rw [h1]; exact Bool.false_ne_true),
        if_neg (by rw [h2]; exact Bool.false_ne_true)]
  · unfold parse_body
    rw [if_neg (by rw [h1]; exact Bool.false_ne_true), if_pos h2]
    rfl

/-- C9 witness: the three universal parts applied to concrete inputs. -/
theorem c9_witness :
    parse_body " ".data = Except.ok none ∧
    parse_body "abc".data = Except.ok (some "abc".data) ∧
    errorKindOf (parse_body "t: v".data) =
      some ParseErrorKind.MalformedOrUnexpectedFooterSeparator :=
  ⟨c9_parse_body.1 " ".data (by decide),
   c9_parse_body.2.1 "abc".data (by decide) (by decide),
   c9_parse_body.2.2.1 "t: v".data (by decide) (by decide)⟩

/-! ## C7: separator enforcement errors -/

/-- C7: `"feat:x"` (colon not followed by a space) fails with
`MissingWhiteSpace`, and `"feat x"` (no colon separator) fails with
`MissingSeparator`. -/
theorem c7_separator_enforcement :
    errorKindOf (parse "feat:x".data) = some ParseErrorKind.MissingWhiteSpace ∧
    errorKindOf (parse "feat x".data) = some ParseErrorKind.MissingSeparator := by
  decide

/-! ## C10: serialization format -/

/-- C10: `to_string` serializes every footer in the colon-space `token:
content` form regardless of the separator kind the footer was parsed with
(the output is unchanged when all separator kinds are replaced by
colon-space), and the `!` marker appears right after the type/scope prefix
exactly when the commit is breaking AND no footer is a breaking-change
footer; in particular the commit whose breaking status comes from a
`BREAKING CHANGE` footer serializes without `!`. -/
theorem c10_serialization :
    (∀ c : ConventionalCommit,
      ConventionalCommit.to_string (normalizeSeps c) =
      ConventionalCommit.to_string c) ∧
    (∀ c : ConventionalCommit,
      (c.to_string.drop (typeScopePrefix c).length).head? = some '!' ↔
        (c.is_breaking_change = true ∧
         c.footers.any Footer.is_breaking_change = false)) ∧
    ConventionalCommit.to_string
      { commit_type := CommitType.Chore, scope := none,
        summary := "a commit".data, body := none,
        footers := [{ token := "BREAKING CHANGE".data,
                      content := "message".data,
                      token_separator := Separator.Colon }],
        is_breaking_change := true } =
      "chore: a commit\n\nBREAKING CHANGE: message".data := by
  refine ⟨?_, ?_, by decide⟩
  · intro c
    have hany : (colonSeparators c.footers).any Footer.is_breaking_change =
        c.footers.any Footer.is_breaking_change := by
      rw [colonSeparators, List.any_map]
      congr 1
    have hmap :
        List.map (fun f => '\n' :: (f.token ++ ':' :: ' ' :: f.content))
          (colonSeparators c.footers) =
        List.map (fun f => '\n' :: (f.token ++ ':' :: ' ' :: f.content))
          c.footers := by
      rw [colonSeparators, List.map_map]
      congr 1
    have hemp : (colonSeparators c.footers).isEmpty = c.footers.isEmpty := by
      rw [colonSeparators]
      cases c.footers <;> rfl
    simp only [ConventionalCommit.to_string, normalizeSeps]
    simp only [hany, hmap, hemp]
  · intro c
    have hpre : c.to_string =
        typeScopePrefix c ++
        ((if c.is_breaking_change && !(c.footers.any Footer.is_breaking_change)
          then ['!'] else []) ++
         ((':' :: ' ' :: c.summary) ++
          ((match c.body with
            | some b => '\n' :: '\n' :: b
            | none => []) ++
           ((if c.footers.isEmpty then [] else ['\n']) ++
            (c.footers.map
              (fun f => '\n' :: (f.token ++ ':' :: ' ' :: f.content))).flatten)))) := by
      simp [ConventionalCommit.to_string, typeScopePrefix, List.append_assoc]
    rw [hpre, List.drop_left]
    cases hb : c.is_breaking_change <;>
      cases ha : c.footers.any Footer.is_breaking_change <;> simp

/-! ## C1: round trip.  Support lemmas on takeWhile and line splitting -/

theorem takeWhile_all_append_neg {p : Char → Bool} (l : Str) (c : Char)
    (r : Str) (hl : ∀ x ∈ l, p x = true) (hc : p c = false) :
    (l ++ c :: r).takeWhile p = l ∧ (l ++ c :: r).dropWhile p = c :: r := by
  induction l with
  | nil => simp [List.takeWhile, List.dropWhile, hc]
  | cons a l ih =>
    have ha : p a = true := hl a (List.mem_cons_self a l)
    have ih2 := ih (fun x hx => hl x (List.mem_cons_of_mem a hx))
    simp [List.takeWhile_cons, List.dropWhile_cons, ha, ih2.1, ih2.2]

theorem takeWhile_all (p : Char → Bool) (l : Str) (hl : ∀ x ∈ l, p x = true) :
    l.takeWhile p = l ∧ l.dropWhile p = [] := by
  induction l with
  | nil => simp
  | cons a l ih =>
    have ha : p a = true := hl a (List.mem_cons_self a l)
    have ih2 := ih (fun x hx => hl x (List.mem_cons_of_mem a hx))
    simp [List.takeWhile_cons, List.dropWhile_cons, ha, ih2.1, ih2.2]

theorem splitNl_ne_nil (s : Str) : splitNl s ≠ [] := by
  cases s with
  | nil => simp [splitNl]
  | cons c r =>
    unfold splitNl
    split <;> simp

theorem splitNl_cons_not_nl (c : Char) (r : Str) (hc : c ≠ '\n') :
    splitNl (c :: r) =
      (c :: (splitNl r).headI) :: (splitNl r).tail := by
  rw [splitNl, if_neg hc]

theorem splitNl_nl (r : Str) : splitNl ('\n' :: r) = [] :: splitNl r := by
  rw [splitNl, if_pos rfl]

theorem mem_splitNl_no_nl (s : Str) : ∀ l ∈ splitNl s, '\n' ∉ l := by
  induction s with
  | nil => intro l hl; simp [splitNl] at hl; simp [hl]
  | cons c r ih =>
    by_cases hc : c = '\n'
    · subst hc
      rw [splitNl_nl]
      intro l hl
      rcases List.mem_cons.mp hl with h | h
      · simp [h]
      · exact ih l h
    · rw [splitNl_cons_not_nl c r hc]
      intro l hl
      rcases List.mem_cons.mp hl with h | h
      · subst h
        intro hmem
        rcases List.mem_cons.mp hmem with h | h
        · exact hc h.symm
        · have hh : (splitNl r).headI ∈ splitNl r := by
            cases hr : splitNl r with
            | nil => exact absurd hr (splitNl_ne_nil r)
            | cons a as => simp
          exact ih _ hh h
      · exact ih l (List.mem_of_mem_tail h)

theorem splitNl_append_nl (x y : Str) :
    splitNl (x ++ '\n' :: y) = splitNl x ++ splitNl y := by
  induction x with
  | nil => simp [splitNl]
  | cons c r ih =>
    by_cases hc : c = '\n'
    · subst hc
      simp only [List.cons_append, splitNl_nl, ih]
    · rw [List.cons_append, splitNl_cons_not_nl c _ hc,
        splitNl_cons_not_nl c r hc, ih]
      have h := splitNl_ne_nil r
      cases hr : splitNl r with
      | nil => exact absurd hr h
      | cons l ls => simp

theorem splitNl_no_nl (s : Str) (h : '\n' ∉ s) : splitNl s = [s] := by
  induction s with
  | nil => rfl
  | cons c r ih =>
    have hc : c ≠ '\n' := fun e => h (by rw [e]; exact List.mem_cons_self _ _)
    rw [splitNl_cons_not_nl c r hc,
      ih (fun m => h (List.mem_cons_of_mem c m))]
    rfl

theorem joinNl_cons (l : Str) (ls : List Str) (h : ls ≠ []) :
    joinNl (l :: ls) = l ++ '\n' :: joinNl ls := by
  unfold joinNl
  cases ls with
  | nil => exact absurd rfl h
  | cons a as => simp [List.intersperse]

theorem joinNl_splitNl (s : Str) : joinNl (splitNl s) = s := by
  induction s with
  | nil => rfl
  | cons c r ih =>
    by_cases hc : c = '\n'
    · subst hc
      rw [splitNl_nl, joinNl_cons [] (splitNl r) (splitNl_ne_nil r), ih]
      rfl
    · rw [splitNl_cons_not_nl c r hc]
      cases hr : splitNl r with
      | nil => exact absurd hr (splitNl_ne_nil r)
      | cons l ls =>
        rw [hr] at ih
        cases ls with
        | nil =>
          simp only [List.headI, List.tail]
          unfold joinNl at ih ⊢
          simp at ih ⊢
          exact ih
        | cons a as =>
          rw [joinNl_cons _ _ (by simp)] at ih
          simp only [List.headI, List.tail]
          rw [joinNl_cons _ _ (by simp), List.cons_append, ih]

theorem splitNl_joinNl (ls : List Str) (h : ls ≠ [])
    (hnl : ∀ l ∈ ls, '\n' ∉ l) : splitNl (joinNl ls) = ls := by
  induction ls with
  | nil => exact absurd rfl h
  | cons l rest ih =>
    cases rest with
    | nil =>
      unfold joinNl
      simp only [List.intersperse, List.flatten]
      rw [List.append_nil]
      exact splitNl_no_nl l (hnl l (List.mem_cons_self _ _))
    | cons a as =>
      rw [joinNl_cons l (a :: as) (by simp), splitNl_append_nl,
        splitNl_no_nl l (hnl l (List.mem_cons_self _ _)),
        ih (by simp) (fun x hx => hnl x (List.mem_cons_of_mem l hx))]
      rfl

/-! ## Footer-line recognition lemmas -/

/-- The tokens accepted at a footer boundary: the literal `BREAKING CHANGE`
or a non-empty word of footer-token characters. -/
def TokWF (t : Str) : Prop :=
  t = "BREAKING CHANGE".data ∨ (t ≠ [] ∧ ∀ ch ∈ t, tokenChar ch = true)

theorem footerStart_nil : footerStart [] = none := by decide

/-- A word of footer-token characters followed by `": "` can never display the
15-character `BREAKING CHANGE` literal prefix. -/
theorem take15_ne_BC (t r : Str) (ht : ∀ ch ∈ t, tokenChar ch = true) :
    (t ++ ':' :: ' ' :: r).take 15 ≠ "BREAKING CHANGE".data := by
  intro h
  by_cases hc : t.length < 15
  · have e1 : (t ++ ':' :: ' ' :: r)[t.length]? = some ':' := by
      rw [List.getElem?_append_right (le_refl _)]
      simp
    have e2 : ((t ++ ':' :: ' ' :: r).take 15)[t.length]? = some ':' := by
      rw [List.getElem?_take, if_pos hc, e1]
    rw [h] at e2
    exact absurd (List.getElem?_mem e2) (by decide)
  · push_neg at hc
    have e1 : (t ++ ':' :: ' ' :: r)[8]? = t[8]? := by
      rw [List.getElem?_append, if_pos (by omega)]
    have e2 : ((t ++ ':' :: ' ' :: r).take 15)[8]? = t[8]? := by
      rw [List.getElem?_take, if_pos (by omega), e1]
    rw [h] at e2
    have e3 : t[8]? = some ' ' := by rw [← e2]; decide
    exact absurd (ht ' ' (List.getElem?_mem e3)) (by decide)

/-- The serialized footer line `token ++ ": " ++ rest` is recognised as a
footer boundary with exactly that token, the colon-space separator, and the
rest of the line, for every well-formed token. -/
theorem footerStart_colon_line (t r : Str) (htok : TokWF t) :
    footerStart (t ++ ':' :: ' ' :: r) = some (t, Separator.Colon, r) := by
  rcases htok with hbc | ⟨h0, ht⟩
  · subst hbc
    unfold footerStart
    have h15 : ("BREAKING CHANGE".data ++ ':' :: ' ' :: r).take 15 =
        "BREAKING CHANGE".data := by
      have := List.take_left "BREAKING CHANGE".data (':' :: ' ' :: r)
      simpa using this
    have hd15 : ("BREAKING CHANGE".data ++ ':' :: ' ' :: r).drop 15 =
        ':' :: ' ' :: r := by
      have := List.drop_left "BREAKING CHANGE".data (':' :: ' ' :: r)
      simpa using this
    rw [if_pos h15, hd15]
    rfl
  · unfold footerStart
    rw [if_neg (take15_ne_BC t r ht)]
    obtain ⟨htw, hdw⟩ := takeWhile_all_append_neg t ':' (' ' :: r) ht (by decide)
    unfold wordFooterStart
    rw [htw, hdw, if_neg h0]
    rfl

/-- Whatever `sepSplit` returns is drawn from its input. -/
theorem sepSplit_mem {x : Str} {sep : Separator} {rest : Str}
    (h : sepSplit x = some (sep, rest)) : ∀ ch ∈ rest, ch ∈ x := by
  unfold sepSplit at h
  split at h
  · injection h with h2
    injection h2 with ha hb
    subst hb
    intro ch hch
    simp [hch]
  · injection h with h2
    injection h2 with ha hb
    subst hb
    intro ch hch
    exact absurd hch (List.not_mem_nil ch)
  · injection h with h2
    injection h2 with ha hb
    subst hb
    intro ch hch
    simp [hch]
  · cases h

/-- What a recognised footer boundary yields: a well-formed token and a
rest-of-line drawn from the line itself. -/
theorem footerStart_some_tok {l t : Str} {sep : Separator} {seg : Str}
    (h : footerStart l = some (t, sep, seg)) :
    TokWF t ∧ ∀ ch ∈ seg, ch ∈ l := by
  unfold footerStart at h
  split at h
  · rename_i h15
    split at h
    · rename_i sep2 rest2 heq
      injection h with h2
      injection h2 with ha hb
      injection hb with hb1 hb2
      subst ha; subst hb2
      refine ⟨Or.inl rfl, fun ch hch => ?_⟩
      have := sepSplit_mem heq ch hch
      exact List.mem_of_mem_drop this
    · cases h
  · unfold wordFooterStart at h
    split at h
    · cases h
    · rename_i hne
      split at h
      · rename_i sep2 rest2 heq
        injection h with h2
        injection h2 with ha hb
        injection hb with hb1 hb2
        subst ha; subst hb2
        refine ⟨Or.inr ⟨hne, fun ch hch => List.mem_takeWhile_imp hch⟩,
          fun ch hch => ?_⟩
        have := sepSplit_mem heq ch hch
        exact (List.dropWhile_sublist tokenChar).mem this
      · cases h

/-! ## Serialized footer blocks re-parse to the same footers -/

/-- The content lines of a footer. -/
def segsOf (f : Footer) : List Str := splitNl f.content

/-- The serialized lines of one footer: `token: firstContentLine` followed by
the remaining content lines. -/
def serFooterLines (f : Footer) : List Str :=
  (f.token ++ ':' :: ' ' :: (segsOf f).headI) :: (segsOf f).tail

/-- The serialized lines of a footer list. -/
def footerLinesAll (fs : List Footer) : List Str :=
  (fs.map serFooterLines).flatten

/-- A footer as produced by a successful parse: its token is well formed and
none of its content lines after the first begins a valid footer. -/
def WFFooter (f : Footer) : Prop :=
  TokWF f.token ∧ ∀ l ∈ (segsOf f).tail, footerStart l = none

theorem headI_cons_tail {α : Type} [Inhabited α] (l : List α) (h : l ≠ []) :
    l.headI :: l.tail = l := by
  cases l with
  | nil => exact absurd rfl h
  | cons a as => rfl

/-- Absorbing non-footer lines appends them to the open footer's content. -/
theorem foldl_footersStep_absorb (ls : List Str)
    (hls : ∀ l ∈ ls, footerStart l = none) (d : List Footer) (t : Str)
    (sep : Separator) (segs : List Str) :
    ls.foldl footersStep ⟨d, some (t, sep, segs)⟩ =
      ⟨d, some (t, sep, segs ++ ls)⟩ := by
  induction ls generalizing segs with
  | nil => simp
  | cons l ls ih =>
    rw [List.foldl_cons]
    have hstep : footersStep ⟨d, some (t, sep, segs)⟩ l =
        ⟨d, some (t, sep, segs ++ [l])⟩ := by
      unfold footersStep
      rw [hls l (List.mem_cons_self _ _)]
    rw [hstep, ih (fun x hx => hls x (List.mem_cons_of_mem l hx))]
    simp

/-- Folding one serialized footer closes the previous open footer and opens
this one with all its content lines. -/
theorem foldl_footersStep_ser (f : Footer) (hf : WFFooter f) (acc : FAcc) :
    (serFooterLines f).foldl footersStep acc =
      ⟨pushCur acc, some (f.token, Separator.Colon, segsOf f)⟩ := by
  unfold serFooterLines
  rw [List.foldl_cons]
  have h1 : footersStep acc (f.token ++ ':' :: ' ' :: (segsOf f).headI) =
      ⟨pushCur acc, some (f.token, Separator.Colon, [(segsOf f).headI])⟩ := by
    unfold footersStep
    rw [footerStart_colon_line f.token _ hf.1]
  rw [h1, foldl_footersStep_absorb _ hf.2]
  rw [List.singleton_append,
    headI_cons_tail (segsOf f) (splitNl_ne_nil f.content)]

/-- Folding the serialized lines of a footer list: the closed result is the
previous closed result followed by the footers, all with the colon-space
separator kind. -/
theorem foldl_footersStep_all (fs : List Footer)
    (hfs : ∀ f ∈ fs, WFFooter f) (acc : FAcc) :
    pushCur ((footerLinesAll fs).foldl footersStep acc) =
      pushCur acc ++ colonSeparators fs := by
  induction fs generalizing acc with
  | nil => simp [footerLinesAll, colonSeparators]
  | cons f fs ih =>
    have hlines : footerLinesAll (f :: fs) =
        serFooterLines f ++ footerLinesAll fs := by
      simp [footerLinesAll]
    rw [hlines, List.foldl_append,
      foldl_footersStep_ser f (hfs f (List.mem_cons_self _ _)) acc,
      ih (fun x hx => hfs x (List.mem_cons_of_mem f hx))]
    have hpush : pushCur ⟨pushCur acc, some (f.token, Separator.Colon, segsOf f)⟩ =
        pushCur acc ++ [{ token := f.token, content := f.content,
                          token_separator := Separator.Colon }] := by
      unfold pushCur
      simp only [segsOf]
      rw [joinNl_splitNl]
    rw [hpush]
    simp [colonSeparators, List.append_assoc]

/-- The footer block serialized from well-formed footers re-parses to the
same footers with colon-space separator kinds. -/
theorem parseFootersLines_ser (fs : List Footer)
    (hfs : ∀ f ∈ fs, WFFooter f) :
    parseFootersLines (footerLinesAll fs) = colonSeparators fs := by
  unfold parseFootersLines
  rw [foldl_footersStep_all fs hfs ⟨[], none⟩]
  rfl

/-! ## Boundary search and serialized block lemmas -/

theorem splitNl_prepend_no_nl (pre s : Str) (h : '\n' ∉ pre) :
    splitNl (pre ++ s) = (pre ++ (splitNl s).headI) :: (splitNl s).tail := by
  induction pre with
  | nil =>
    simp only [List.nil_append]
    exact (headI_cons_tail (splitNl s) (splitNl_ne_nil s)).symm
  | cons c pre ih =>
    have hc : c ≠ '\n' := fun e => h (by rw [e]; exact List.mem_cons_self _ _)
    rw [List.cons_append,
      splitNl_cons_not_nl c _ hc,
      ih (fun m => h (List.mem_cons_of_mem c m))]
    simp

/-- The serialized text of a footer list as appended by `to_string`: each
footer on a new line in `token: content` form. -/
def serFooterText (fs : List Footer) : Str :=
  (fs.map (fun f => '\n' :: (f.token ++ ':' :: ' ' :: f.content))).flatten

theorem tokWF_no_nl {t : Str} (h : TokWF t) : '\n' ∉ t := by
  rcases h with hbc | ⟨h0, ht⟩
  · rw [hbc]; decide
  · intro hm
    exact absurd (ht '\n' hm) (by decide)

/-- One serialized footer line splits into that footer's lines. -/
theorem splitNl_footer_line (f : Footer) (hf : WFFooter f) :
    splitNl (f.token ++ ':' :: ' ' :: f.content) = serFooterLines f := by
  have hpre : '\n' ∉ f.token ++ [':', ' '] := by
    intro hm
    rcases List.mem_append.mp hm with hm | hm
    · exact tokWF_no_nl hf.1 hm
    · simp at hm
  have := splitNl_prepend_no_nl (f.token ++ [':', ' ']) f.content hpre
  rw [List.append_assoc] at this
  simp only [List.cons_append, List.nil_append] at this
  rw [this]
  simp [serFooterLines, segsOf, List.append_assoc]

/-- Appending serialized footers after any text: the line structure is the
text's lines followed by the footers' lines. -/
theorem splitNl_append_serFooterText (fs : List Footer) (x : Str)
    (hfs : ∀ f ∈ fs, WFFooter f) :
    splitNl (x ++ serFooterText fs) = splitNl x ++ footerLinesAll fs := by
  induction fs generalizing x with
  | nil => simp [serFooterText, footerLinesAll]
  | cons f rest ih =>
    have hser : serFooterText (f :: rest) =
        '\n' :: ((f.token ++ ':' :: ' ' :: f.content) ++ serFooterText rest) := by
      simp [serFooterText]
    rw [hser, splitNl_append_nl,
      ih _ (fun g hg => hfs g (List.mem_cons_of_mem f hg))]
    have hlines : footerLinesAll (f :: rest) =
        serFooterLines f ++ footerLinesAll rest := by
      simp [footerLinesAll]
    rw [hlines, splitNl_footer_line f (hfs f (List.mem_cons_self _ _))]

/-- A blank line followed by a footer line after a boundary-free body: the
boundary is found exactly at the end of the body lines. -/
theorem findBoundary_body_footers (bl : List Str) (l : Str) (ls : List Str)
    (hb : findBoundary bl = none) (h0 : bl ≠ [])
    (hl : (footerStart l).isSome = true) :
    findBoundary (bl ++ [] :: l :: ls) = some bl.length := by
  induction bl with
  | nil => exact absurd rfl h0
  | cons b rest ih =>
    cases rest with
    | nil =>
      show findBoundary (b :: [] :: l :: ls) = some 1
      unfold findBoundary
      rw [if_neg (by simp [footerStart_nil])]
      unfold findBoundary
      rw [if_pos (by simp [hl])]
      rfl
    | cons b2 rest2 =>
      unfold findBoundary at hb
      split at hb
      · cases hb
      · rename_i hcond
        have hnone : findBoundary (b2 :: rest2) = none := by
          cases hr : findBoundary (b2 :: rest2) with
          | none => rfl
          | some j => rw [hr] at hb; cases hb
        show findBoundary ((b :: b2 :: rest2) ++ [] :: l :: ls) = _
        rw [List.cons_append, List.cons_append]
        unfold findBoundary
        rw [if_neg hcond, ← List.cons_append, ih hnone (by simp)]
        rfl

/-- Before the found boundary there is no boundary. -/
theorem findBoundary_take (ls : List Str) (i : Nat)
    (h : findBoundary ls = some i) : findBoundary (ls.take i) = none := by
  induction ls generalizing i with
  | nil => cases h
  | cons a rest ih =>
    cases rest with
    | nil => cases h
    | cons b r2 =>
      unfold findBoundary at h
      split at h
      · injection h with h1
        subst h1
        rfl
      · rename_i hcond
        rcases Option.map_eq_some'.mp h with ⟨j, hj, hij⟩
        subst hij
        cases hjz : j with
        | zero =>
          subst hjz
          rfl
        | succ j2 =>
          subst hjz
          have h2 := ih (j2 + 1) hj
          rw [List.take_succ_cons] at h2
          rw [List.take_succ_cons, List.take_succ_cons]
          unfold findBoundary
          rw [if_neg hcond, h2]
          rfl

/-! ## Serialized blocks re-parse correctly -/

theorem headI_append {α : Type} [Inhabited α] (xs ys : List α) (h : xs ≠ []) :
    (xs ++ ys).headI = xs.headI := by
  cases xs with
  | nil => exact absurd rfl h
  | cons a as => rfl

theorem parseBlocks_ser_bodyOnly (b : Str)
    (h1 : footerStart (splitNl b).headI = none)
    (h2 : findBoundary (splitNl b) = none) :
    parseBlocks b = (b, []) := by
  simp only [parseBlocks]
  rw [if_neg (by rw [h1]; simp), h2]

theorem parseBlocks_ser_footersOnly (f : Footer) (fs : List Footer)
    (hfs : ∀ g ∈ f :: fs, WFFooter g) :
    parseBlocks (f.token ++ ':' :: ' ' :: (f.content ++ serFooterText fs)) =
      ([], colonSeparators (f :: fs)) := by
  have heq : f.token ++ ':' :: ' ' :: (f.content ++ serFooterText fs) =
      (f.token ++ ':' :: ' ' :: f.content) ++ serFooterText fs := by
    simp [List.append_assoc]
  rw [heq]
  have hsplit :
      splitNl ((f.token ++ ':' :: ' ' :: f.content) ++ serFooterText fs) =
        footerLinesAll (f :: fs) := by
    rw [splitNl_append_serFooterText fs _
          (fun g hg => hfs g (List.mem_cons_of_mem f hg)),
        splitNl_footer_line f (hfs f (List.mem_cons_self _ _))]
    simp [footerLinesAll]
  have hfl : footerLinesAll (f :: fs) =
      (f.token ++ ':' :: ' ' :: (segsOf f).headI) ::
        ((segsOf f).tail ++ footerLinesAll fs) := by
    simp [footerLinesAll, serFooterLines]
  have hhead : (footerLinesAll (f :: fs)).headI =
      f.token ++ ':' :: ' ' :: (segsOf f).headI := by
    rw [hfl]
    rfl
  simp only [parseBlocks, hsplit]
  rw [if_pos (by
    rw [hhead, footerStart_colon_line _ _ (hfs f (List.mem_cons_self _ _)).1]
    rfl)]
  rw [parseFootersLines_ser _ hfs]

theorem parseBlocks_ser_bodyFooters (b : Str) (f : Footer) (fs : List Footer)
    (h1 : footerStart (splitNl b).headI = none)
    (h2 : findBoundary (splitNl b) = none)
    (hfs : ∀ g ∈ f :: fs, WFFooter g) :
    parseBlocks (b ++ '\n' :: serFooterText (f :: fs)) =
      (b, colonSeparators (f :: fs)) := by
  have hser : serFooterText (f :: fs) =
      '\n' :: ((f.token ++ ':' :: ' ' :: f.content) ++ serFooterText fs) := by
    simp [serFooterText]
  have hsplit : splitNl (b ++ '\n' :: serFooterText (f :: fs)) =
      splitNl b ++ [] :: footerLinesAll (f :: fs) := by
    rw [splitNl_append_nl, hser, splitNl_nl,
      splitNl_append_serFooterText fs _
        (fun g hg => hfs g (List.mem_cons_of_mem f hg)),
      splitNl_footer_line f (hfs f (List.mem_cons_self _ _))]
    simp [footerLinesAll]
  have hfl : footerLinesAll (f :: fs) =
      (f.token ++ ':' :: ' ' :: (segsOf f).headI) ::
        ((segsOf f).tail ++ footerLinesAll fs) := by
    simp [footerLinesAll, serFooterLines]
  have hhead : (splitNl b ++ [] :: footerLinesAll (f :: fs)).headI =
      (splitNl b).headI := headI_append _ _ (splitNl_ne_nil b)
  have hbound : findBoundary (splitNl b ++ [] :: footerLinesAll (f :: fs)) =
      some (splitNl b).length := by
    rw [hfl]
    exact findBoundary_body_footers (splitNl b) _ _ h2 (splitNl_ne_nil b)
      (by rw [footerStart_colon_line _ _ (hfs f (List.mem_cons_self _ _)).1]; rfl)
  have htake : (splitNl b ++ [] :: footerLinesAll (f :: fs)).take
      (splitNl b).length = splitNl b := List.take_left _ _
  have hdrop : (splitNl b ++ [] :: footerLinesAll (f :: fs)).drop
      ((splitNl b).length + 1) = footerLinesAll (f :: fs) := by
    have he : splitNl b ++ [] :: footerLinesAll (f :: fs) =
        (splitNl b ++ [[]]) ++ footerLinesAll (f :: fs) := by simp
    have hlen : (splitNl b).length + 1 = (splitNl b ++ [[]]).length := by simp
    rw [he, hlen]
    exact List.drop_left _ _
  simp only [parseBlocks, hsplit]
  rw [if_neg (by rw [hhead, h1]; simp), hbound]
  show (joinNl (List.take (splitNl b).length
          (splitNl b ++ [] :: footerLinesAll (f :: fs))),
        parseFootersLines (List.drop ((splitNl b).length + 1)
          (splitNl b ++ [] :: footerLinesAll (f :: fs)))) =
      (b, colonSeparators (f :: fs))
  rw [htake, hdrop, parseFootersLines_ser _ hfs, joinNl_splitNl]

/-! ## The serialized summary line re-parses correctly -/

/-- The serialized scope element. -/
def serScope : Option Str → Str
  | some s => '(' :: (s ++ [')'])
  | none => []

/-- The serialized breaking marker. -/
def serBang : Bool → Str
  | true => ['!']
  | false => []

theorem finishSummary_ser (t : Str) (sc : Option Str) (mark : Bool)
    (sum rest : Str) (h4 : sum ≠ []) (h5 : ∀ ch ∈ sum, ch ≠ '\n')
    (h6 : rest = [] ∨ ∃ r2, rest = '\n' :: r2) :
    finishSummary t sc mark (':' :: ' ' :: (sum ++ rest)) =
      Except.ok (⟨t, sc, mark, sum⟩, rest) := by
  have hp : ∀ ch ∈ sum, (fun c => decide (c ≠ '\n')) ch = true := by
    intro ch hch
    simp [h5 ch hch]
  have hkeep : (sum ++ rest).takeWhile (fun c => c ≠ '\n') = sum ∧
      (sum ++ rest).dropWhile (fun c => c ≠ '\n') = rest := by
    rcases h6 with h | ⟨r2, h⟩
    · subst h
      rw [List.append_nil]
      exact takeWhile_all _ sum hp
    · subst h
      exact takeWhile_all_append_neg sum '\n' r2 hp (by simp)
  simp only [finishSummary]
  rw [hkeep.1, hkeep.2, if_neg h4]

theorem summaryMark_ser (t : Str) (sc : Option Str) (bang : Bool)
    (sum rest : Str) (h4 : sum ≠ []) (h5 : ∀ ch ∈ sum, ch ≠ '\n')
    (h6 : rest = [] ∨ ∃ r2, rest = '\n' :: r2) :
    summaryMark t sc (serBang bang ++ ':' :: ' ' :: (sum ++ rest)) =
      Except.ok (⟨t, sc, bang, sum⟩, rest) := by
  cases bang with
  | true =>
    show summaryMark t sc ('!' :: ':' :: ' ' :: (sum ++ rest)) = _
    simp only [summaryMark]
    exact finishSummary_ser t sc true sum rest h4 h5 h6
  | false =>
    show summaryMark t sc (':' :: ' ' :: (sum ++ rest)) = _
    simp only [summaryMark]
    exact finishSummary_ser t sc false sum rest h4 h5 h6

theorem parseSummary_ser (t : Str) (sc : Option Str) (bang : Bool)
    (sum rest : Str)
    (h1 : t ≠ []) (h2 : ∀ ch ∈ t, typeChar ch = true)
    (h3 : ∀ s, sc = some s → ∀ ch ∈ s, scopeChar ch = true)
    (h4 : sum ≠ []) (h5 : ∀ ch ∈ sum, ch ≠ '\n')
    (h6 : rest = [] ∨ ∃ r2, rest = '\n' :: r2) :
    parseSummary
        (t ++ (serScope sc ++ (serBang bang ++ (':' :: ' ' :: (sum ++ rest))))) =
      Except.ok (⟨t, sc, bang, sum⟩, rest) := by
  cases sc with
  | none =>
    show parseSummary (t ++ (serBang bang ++ (':' :: ' ' :: (sum ++ rest)))) = _
    cases bang with
    | true =>
      show parseSummary (t ++ '!' :: ':' :: ' ' :: (sum ++ rest)) = _
      have hsplit := takeWhile_all_append_neg t '!'
        (':' :: ' ' :: (sum ++ rest)) h2 (by decide)
      simp only [parseSummary]
      rw [hsplit.1, if_neg h1, hsplit.2]
      exact summaryMark_ser t none true sum rest h4 h5 h6
    | false =>
      show parseSummary (t ++ ':' :: ' ' :: (sum ++ rest)) = _
      have hsplit := takeWhile_all_append_neg t ':'
        (' ' :: (sum ++ rest)) h2 (by decide)
      simp only [parseSummary]
      rw [hsplit.1, if_neg h1, hsplit.2]
      exact summaryMark_ser t none false sum rest h4 h5 h6
  | some s =>
    have hs := h3 s rfl
    show parseSummary
        (t ++ ('(' :: ((s ++ [')']) ++ (serBang bang ++ (':' :: ' ' :: (sum ++ rest)))))) = _
    rw [List.append_assoc s [')']]
    have hsplit := takeWhile_all_append_neg t '('
      (s ++ ([')'] ++ (serBang bang ++ (':' :: ' ' :: (sum ++ rest))))) h2 (by decide)
    simp only [parseSummary]
    rw [hsplit.1, if_neg h1, hsplit.2]
    show parseScopePart t
        (s ++ (')' :: (serBang bang ++ (':' :: ' ' :: (sum ++ rest))))) = _
    have hscope := takeWhile_all_append_neg s ')'
      (serBang bang ++ (':' :: ' ' :: (sum ++ rest))) hs (by decide)
    simp only [parseScopePart]
    rw [hscope.1, hscope.2]
    exact summaryMark_ser t (some s) bang sum rest h4 h5 h6

/-! ## Commit-type round trip -/

theorem typeChar_asciiLowerChar (ch : Char) (h : typeChar ch = true) :
    typeChar (asciiLowerChar ch) = true := by
  by_cases hu : 65 ≤ ch.toNat ∧ ch.toNat ≤ 90
  · have ht := asciiLowerChar_toNat_of_upper hu
    have hx : 97 ≤ (asciiLowerChar ch).toNat ∧
        (asciiLowerChar ch).toNat ≤ 122 := by omega
    have hne : ∀ c : Char, c.toNat < 97 → asciiLowerChar ch ≠ c := by
      intro c hc e
      rw [e] at hx
      omega
    have h1 : asciiLowerChar ch ≠ ' ' := hne ' ' (by decide)
    have h2 : asciiLowerChar ch ≠ '\t' := hne '\t' (by decide)
    have h3 : asciiLowerChar ch ≠ '\n' := hne '\n' (by decide)
    have h4 : asciiLowerChar ch ≠ '\r' := hne '\r' (by decide)
    have h5 : asciiLowerChar ch ≠ '(' := hne '(' (by decide)
    have h6 : asciiLowerChar ch ≠ ':' := hne ':' (by decide)
    have h7 : asciiLowerChar ch ≠ '!' := hne '!' (by decide)
    simp [typeChar, isWsp, h1, h2, h3, h4, h5, h6, h7]
  · rw [asciiLowerChar_of_not_upper hu]
    exact h

/-- Classification only depends on the lower-cased token. -/
theorem fromStr_asciiLower (s : Str) :
    CommitType.fromStr s = CommitType.fromStr (asciiLower s) := by
  unfold CommitType.fromStr
  rw [asciiLower_idem]

/-- `CommitType::from`, written out (the `let` is transparent). -/
theorem fromStr_eq (t : Str) :
    CommitType.fromStr t =
      (if asciiLower t = "feat".data then CommitType.Feature
       else if asciiLower t = "fix".data then CommitType.BugFix
       else if asciiLower t = "chore".data then CommitType.Chore
       else if asciiLower t = "revert".data then CommitType.Revert
       else if asciiLower t = "perf".data then CommitType.Performances
       else if asciiLower t = "docs".data then CommitType.Documentation
       else if asciiLower t = "style".data then CommitType.Style
       else if asciiLower t = "refactor".data then CommitType.Refactor
       else if asciiLower t = "test".data then CommitType.Test
       else if asciiLower t = "build".data then CommitType.Build
       else if asciiLower t = "ci".data then CommitType.Ci
       else CommitType.Custom (asciiLower t)) := rfl

/-- The commit type of a parsed type token serializes to a non-empty string
of type characters that classifies back to the same commit type. -/
theorem typeRoundTrip (t : Str) (h0 : t ≠ [])
    (ht : ∀ ch ∈ t, typeChar ch = true) :
    (CommitType.fromStr t).asRef ≠ [] ∧
    (∀ ch ∈ (CommitType.fromStr t).asRef, typeChar ch = true) ∧
    CommitType.fromStr ((CommitType.fromStr t).asRef) = CommitType.fromStr t := by
  by_cases hstd : standardTokens.contains (asciiLower t)
  · have hdis : asciiLower t = "feat".data ∨ asciiLower t = "fix".data ∨
        asciiLower t = "chore".data ∨ asciiLower t = "revert".data ∨
        asciiLower t = "perf".data ∨ asciiLower t = "docs".data ∨
        asciiLower t = "style".data ∨ asciiLower t = "refactor".data ∨
        asciiLower t = "test".data ∨ asciiLower t = "build".data ∨
        asciiLower t = "ci".data := by
      simpa [standardTokens] using hstd
    rcases hdis with h | h | h | h | h | h | h | h | h | h | h <;>
      rw [fromStr_asciiLower t, h] <;>
      exact ⟨by decide, by decide, by decide⟩
  · have hf := fromStr_of_not_standard t hstd
    refine ⟨?_, ?_, ?_⟩
    · rw [hf]
      show asciiLower t ≠ []
      simp [asciiLower, h0]
    · rw [hf]
      intro ch hch
      rcases List.mem_map.mp hch with ⟨c0, hc0, he⟩
      rw [← he]
      exact typeChar_asciiLowerChar c0 (ht c0 hc0)
    · rw [hf]
      show CommitType.fromStr (asciiLower t) = CommitType.Custom (asciiLower t)
      rw [fromStr_of_not_standard (asciiLower t)
        (by rw [asciiLower_idem]; exact hstd), asciiLower_idem]

/-! ## The serialization round trip for well-formed commits -/

/-- Everything following `": summary"` in the serialized commit. -/
def tailPart (c : ConventionalCommit) : Str :=
  (match c.body with
   | some b => '\n' :: '\n' :: b
   | none => []) ++
  ((if c.footers.isEmpty then [] else ['\n']) ++ serFooterText c.footers)

/-- The serialized commit, grouped for re-parsing. -/
theorem to_string_shape (c : ConventionalCommit) :
    c.to_string =
      c.commit_type.asRef ++
        (serScope c.scope ++
          (serBang (c.is_breaking_change &&
              !(c.footers.any Footer.is_breaking_change)) ++
            (':' :: ' ' :: (c.summary ++ tailPart c)))) := by
  unfold ConventionalCommit.to_string tailPart serScope serBang serFooterText
  cases c.scope <;>
    cases c.body <;>
      cases hb : c.is_breaking_change && !(c.footers.any Footer.is_breaking_change) <;>
        simp [List.append_assoc]

theorem any_colonSeparators (fs : List Footer) :
    (colonSeparators fs).any Footer.is_breaking_change =
      fs.any Footer.is_breaking_change := by
  rw [colonSeparators, List.any_map]
  congr 1

/-- The invariants satisfied by every commit produced by a successful parse:
exactly what is needed for its serialization to re-parse to the same commit
(up to footer separator kinds). -/
structure WF (c : ConventionalCommit) : Prop where
  type_ne : c.commit_type.asRef ≠ []
  type_chars : ∀ ch ∈ c.commit_type.asRef, typeChar ch = true
  type_rt : CommitType.fromStr c.commit_type.asRef = c.commit_type
  scope_wf : ∀ s, c.scope = some s → s ≠ [] ∧ ∀ ch ∈ s, scopeChar ch = true
  summary_ne : c.summary ≠ []
  summary_nl : ∀ ch ∈ c.summary, ch ≠ '\n'
  body_wf : ∀ b, c.body = some b →
    b ≠ [] ∧ footerStart (splitNl b).headI = none ∧
      findBoundary (splitNl b) = none
  footers_wf : ∀ f ∈ c.footers, WFFooter f
  breaking_wf : c.footers.any Footer.is_breaking_change = true →
    c.is_breaking_change = true

theorem tailPart_shape (c : ConventionalCommit) :
    tailPart c = [] ∨ ∃ r2, tailPart c = '\n' :: r2 := by
  unfold tailPart serFooterText
  cases c.body <;> cases c.footers <;> simp

theorem parseMessage_eq_nil {s : Str} {sum : SummaryAst}
    (h : parseSummary s = Except.ok (sum, [])) :
    parseMessage s = Except.ok ⟨sum, [], []⟩ := by
  unfold parseMessage
  rw [h]

theorem parseMessage_eq_blocks {s : Str} {sum : SummaryAst} {r2 bt : Str}
    {fs : List Footer} (h : parseSummary s = Except.ok (sum, '\n' :: '\n' :: r2))
    (hb : parseBlocks r2 = (bt, fs)) :
    parseMessage s = Except.ok ⟨sum, bt, fs⟩ := by
  unfold parseMessage
  rw [h]
  show Except.ok ⟨sum, (parseBlocks r2).1, (parseBlocks r2).2⟩ =
    Except.ok (⟨sum, bt, fs⟩ : MsgAst)
  rw [hb]

theorem parse_eq_build {s : Str} {m : MsgAst}
    (h : parseMessage s = Except.ok m) :
    parse s = Except.ok (buildCommit m) := by
  unfold parse
  rw [h]

theorem buildCommit_ser (c : ConventionalCommit) (h : WF c) (bodyTxt : Str)
    (hbody : (bodyTxt = [] ∧ c.body = none) ∨
      (c.body = some bodyTxt ∧ bodyTxt ≠ [])) :
    buildCommit ⟨⟨c.commit_type.asRef, c.scope,
        c.is_breaking_change && !(c.footers.any Footer.is_breaking_change),
        c.summary⟩, bodyTxt, colonSeparators c.footers⟩ = normalizeSeps c := by
  rw [buildCommit_eq]
  have h2 : (match c.scope with
      | some s => if s = [] then none else some s
      | none => none) = c.scope := by
    cases hsc : c.scope with
    | none => rfl
    | some s => simp [(h.scope_wf s hsc).1]
  have h3 : (if bodyTxt = [] then none else some bodyTxt) = c.body := by
    rcases hbody with ⟨hb1, hb2⟩ | ⟨hb1, hb2⟩
    · rw [if_pos hb1, hb2]
    · rw [if_neg hb2, hb1]
  have h4 : ((c.is_breaking_change &&
        !(c.footers.any Footer.is_breaking_change)) ||
      (colonSeparators c.footers).any Footer.is_breaking_change) =
      c.is_breaking_change := by
    rw [any_colonSeparators]
    cases hf : c.footers.any Footer.is_breaking_change with
    | true => simp [h.breaking_wf hf]
    | false => simp
  show ({ commit_type := CommitType.fromStr c.commit_type.asRef,
          scope := (match c.scope with
            | some s => if s = [] then none else some s
            | none => none),
          summary := c.summary,
          body := (if bodyTxt = [] then none else some bodyTxt),
          footers := colonSeparators c.footers,
          is_breaking_change := ((c.is_breaking_change &&
              !(c.footers.any Footer.is_breaking_change)) ||
            (colonSeparators c.footers).any Footer.is_breaking_change) } :
      ConventionalCommit) = normalizeSeps c
  rw [h.type_rt, h2, h3, h4]
  rfl

/-- The central serialization theorem: a well-formed commit's serialization
re-parses successfully to the commit with all footer separator kinds
normalized to colon-space. -/
theorem parse_to_string_of_WF (c : ConventionalCommit) (h : WF c) :
    parse c.to_string = Except.ok (normalizeSeps c) := by
  have hsum : parseSummary c.to_string =
      Except.ok (⟨c.commit_type.asRef, c.scope,
        c.is_breaking_change && !(c.footers.any Footer.is_breaking_change),
        c.summary⟩, tailPart c) := by
    rw [to_string_shape c]
    exact parseSummary_ser _ _ _ _ _ h.type_ne h.type_chars
      (fun s hs => (h.scope_wf s hs).2) h.summary_ne h.summary_nl
      (tailPart_shape c)
  cases hbody : c.body with
  | none =>
    cases hfs : c.footers with
    | nil =>
      have htail : tailPart c = [] := by
        simp [tailPart, hbody, hfs, serFooterText]
      rw [htail] at hsum
      have hmsg : parseMessage c.to_string =
          Except.ok ⟨⟨c.commit_type.asRef, c.scope,
            c.is_breaking_change && !(c.footers.any Footer.is_breaking_change),
            c.summary⟩, [], []⟩ := parseMessage_eq_nil hsum
      have hthis := buildCommit_ser c h [] (Or.inl ⟨rfl, hbody⟩)
      have hcs : colonSeparators c.footers = [] := by rw [hfs]; rfl
      rw [hcs] at hthis
      rw [parse_eq_build hmsg, hthis]
    | cons f fs2 =>
      have hser : serFooterText (f :: fs2) =
          '\n' :: (f.token ++ ':' :: ' ' :: (f.content ++ serFooterText fs2)) := by
        simp [serFooterText, List.append_assoc]
      have htail : tailPart c = '\n' :: '\n' ::
          (f.token ++ ':' :: ' ' :: (f.content ++ serFooterText fs2)) := by
        rw [tailPart, hbody, hfs, hser]
        rfl
      rw [htail] at hsum
      have hfswf : ∀ g ∈ f :: fs2, WFFooter g := by
        rw [← hfs]; exact h.footers_wf
      have hmsg : parseMessage c.to_string =
          Except.ok ⟨⟨c.commit_type.asRef, c.scope,
            c.is_breaking_change && !(c.footers.any Footer.is_breaking_change),
            c.summary⟩, [], colonSeparators c.footers⟩ :=
        parseMessage_eq_blocks hsum
          (by rw [parseBlocks_ser_footersOnly f fs2 hfswf, hfs])
      have hthis := buildCommit_ser c h [] (Or.inl ⟨rfl, hbody⟩)
      rw [parse_eq_build hmsg, hthis]
  | some b =>
    obtain ⟨hb1, hb2, hb3⟩ := h.body_wf b hbody
    cases hfs : c.footers with
    | nil =>
      have htail : tailPart c = '\n' :: '\n' :: b := by
        simp [tailPart, hbody, hfs, serFooterText]
      rw [htail] at hsum
      have hmsg : parseMessage c.to_string =
          Except.ok ⟨⟨c.commit_type.asRef, c.scope,
            c.is_breaking_change && !(c.footers.any Footer.is_breaking_change),
            c.summary⟩, b, []⟩ :=
        parseMessage_eq_blocks hsum (parseBlocks_ser_bodyOnly b hb2 hb3)
      have hthis := buildCommit_ser c h b (Or.inr ⟨hbody, hb1⟩)
      have hcs : colonSeparators c.footers = [] := by rw [hfs]; rfl
      rw [hcs] at hthis
      rw [parse_eq_build hmsg, hthis]
    | cons f fs2 =>
      have htail : tailPart c = '\n' :: '\n' ::
          (b ++ '\n' :: serFooterText (f :: fs2)) := by
        simp [tailPart, hbody, hfs, List.append_assoc]
      rw [htail] at hsum
      have hfswf : ∀ g ∈ f :: fs2, WFFooter g := by
        rw [← hfs]; exact h.footers_wf
      have hmsg : parseMessage c.to_string =
          Except.ok ⟨⟨c.commit_type.asRef, c.scope,
            c.is_breaking_change && !(c.footers.any Footer.is_breaking_change),
            c.summary⟩, b, colonSeparators c.footers⟩ :=
        parseMessage_eq_blocks hsum
          (by rw [parseBlocks_ser_bodyFooters b f fs2 hb2 hb3 hfswf, hfs])
      have hthis := buildCommit_ser c h b (Or.inr ⟨hbody, hb1⟩)
      rw [parse_eq_build hmsg, hthis]


/-! ## A successful parse yields a well-formed commit -/

theorem finishSummary_ok_facts {t : Str} {sc : Option Str} {mark : Bool}
    {r : Str} {sum : SummaryAst} {rest : Str}
    (h : finishSummary t sc mark r = Except.ok (sum, rest)) :
    sum.ctype = t ∧ sum.scopeRaw = sc ∧ sum.content ≠ [] ∧
      ∀ ch ∈ sum.content, ch ≠ '\n' := by
  unfold finishSummary at h
  split at h
  · rename_i r2
    split at h
    · cases h
    · rename_i hne
      injection h with h2
      injection h2 with ha hb
      rw [← ha]
      refine ⟨rfl, rfl, hne, fun ch hch => ?_⟩
      have := List.mem_takeWhile_imp hch
      simpa using this
  · cases h
  · cases h

theorem summaryMark_ok_facts {t : Str} {sc : Option Str} {r : Str}
    {sum : SummaryAst} {rest : Str}
    (h : summaryMark t sc r = Except.ok (sum, rest)) :
    sum.ctype = t ∧ sum.scopeRaw = sc ∧ sum.content ≠ [] ∧
      ∀ ch ∈ sum.content, ch ≠ '\n' := by
  unfold summaryMark at h
  split at h
  · exact finishSummary_ok_facts h
  · exact finishSummary_ok_facts h

theorem parseSummary_ok_facts {s : Str} {sum : SummaryAst} {rest : Str}
    (h : parseSummary s = Except.ok (sum, rest)) :
    (sum.ctype ≠ [] ∧ ∀ ch ∈ sum.ctype, typeChar ch = true) ∧
    (∀ sc, sum.scopeRaw = some sc → ∀ ch ∈ sc, scopeChar ch = true) ∧
    (sum.content ≠ [] ∧ ∀ ch ∈ sum.content, ch ≠ '\n') := by
  unfold parseSummary at h
  split at h
  · cases h
  · rename_i hne
    have htfacts : s.takeWhile typeChar ≠ [] ∧
        ∀ ch ∈ s.takeWhile typeChar, typeChar ch = true :=
      ⟨hne, fun ch hch => List.mem_takeWhile_imp hch⟩
    split at h
    · rename_i r2 heq
      unfold parseScopePart at h
      split at h
      · rename_i r3 heq2
        obtain ⟨h1, h2, h3, h4⟩ := summaryMark_ok_facts h
        rw [h1, h2]
        refine ⟨htfacts, fun sc hsc ch hch => ?_, h3, h4⟩
        injection hsc with hsc2
        rw [← hsc2] at hch
        exact List.mem_takeWhile_imp hch
      · cases h
      · cases h
      · cases h
    · obtain ⟨h1, h2, h3, h4⟩ := summaryMark_ok_facts h
      rw [h1, h2]
      refine ⟨htfacts, ?_, h3, h4⟩
      intro sc hsc
      exact absurd hsc (by simp)

/-- The invariant carried by the footer-walk accumulator. -/
def AccWF (acc : FAcc) : Prop :=
  (∀ f ∈ acc.done, WFFooter f) ∧
  ∀ t sep segs, acc.cur = some (t, sep, segs) →
    TokWF t ∧ (∀ l ∈ segs.tail, footerStart l = none) ∧
      ∀ l ∈ segs, '\n' ∉ l

theorem pushCur_WF {acc : FAcc} (h : AccWF acc) :
    ∀ f ∈ pushCur acc, WFFooter f := by
  unfold pushCur
  cases hcur : acc.cur with
  | none => exact h.1
  | some p =>
    obtain ⟨t, sep, segs⟩ := p
    obtain ⟨htok, htail, hnl⟩ := h.2 t sep segs hcur
    intro f hf
    rcases List.mem_append.mp hf with hf | hf
    · exact h.1 f hf
    · have hfe : f = ⟨t, joinNl segs, sep⟩ := by simpa using hf
      subst hfe
      refine ⟨htok, ?_⟩
      cases segs with
      | nil =>
        intro l hl
        simp [segsOf, joinNl, splitNl] at hl
      | cons a as =>
        intro l hl
        have hsp : splitNl (joinNl (a :: as)) = a :: as :=
          splitNl_joinNl (a :: as) (by simp) hnl
        simp only [segsOf] at hl
        rw [hsp] at hl
        exact htail l hl

theorem footersStep_WF {acc : FAcc} {l : Str} (h : AccWF acc)
    (hl : '\n' ∉ l) : AccWF (footersStep acc l) := by
  unfold footersStep
  cases hfs : footerStart l with
  | some p =>
    obtain ⟨t, sep, seg⟩ := p
    obtain ⟨htok, hsegmem⟩ := footerStart_some_tok hfs
    refine ⟨pushCur_WF h, fun t2 sep2 segs2 hcur => ?_⟩
    injection hcur with hcur2
    injection hcur2 with ha hb
    injection hb with hb1 hb2
    subst ha
    subst hb1
    subst hb2
    cases sep with
    | ColonWithNewLine =>
      refine ⟨htok, ?_, ?_⟩
      · intro x hx
        simp at hx
      · intro x hx
        simp at hx
    | Colon =>
      refine ⟨htok, ?_, ?_⟩
      · intro x hx
        simp at hx
      · intro x hx
        have hxe : x = seg := by simpa using hx
        subst hxe
        exact fun hm => hl (hsegmem '\n' hm)
    | Hash =>
      refine ⟨htok, ?_, ?_⟩
      · intro x hx
        simp at hx
      · intro x hx
        have hxe : x = seg := by simpa using hx
        subst hxe
        exact fun hm => hl (hsegmem '\n' hm)
  | none =>
    cases hcur : acc.cur with
    | none => exact h
    | some p =>
      obtain ⟨t, sep, segs⟩ := p
      obtain ⟨htok, htail, hnl⟩ := h.2 t sep segs hcur
      show AccWF { done := acc.done, cur := some (t, sep, segs ++ [l]) }
      refine ⟨h.1, fun t2 sep2 segs2 hc => ?_⟩
      injection hc with hc2
      injection hc2 with ha hb
      injection hb with hb1 hb2
      subst ha
      subst hb1
      subst hb2
      refine ⟨htok, ?_, ?_⟩
      · intro x hx
        cases hsegs : segs with
        | nil =>
          rw [hsegs] at hx
          simp at hx
        | cons a as =>
          rw [hsegs] at hx
          simp at hx
          rcases hx with hx | hx
          · apply htail
            rw [hsegs]
            simp [hx]
          · subst hx
            exact hfs
      · intro x hx
        rcases List.mem_append.mp hx with hx | hx
        · exact hnl x hx
        · have hxe : x = l := by simpa using hx
          subst hxe
          exact hl

theorem foldl_footersStep_WF (ls : List Str) (acc : FAcc) (h : AccWF acc)
    (hnl : ∀ l ∈ ls, '\n' ∉ l) : AccWF (ls.foldl footersStep acc) := by
  induction ls generalizing acc with
  | nil => exact h
  | cons l ls ih =>
    rw [List.foldl_cons]
    exact ih _ (footersStep_WF h (hnl l (List.mem_cons_self _ _)))
      (fun x hx => hnl x (List.mem_cons_of_mem l hx))

theorem parseFootersLines_WF (ls : List Str)
    (hnl : ∀ l ∈ ls, '\n' ∉ l) :
    ∀ f ∈ parseFootersLines ls, WFFooter f := by
  unfold parseFootersLines
  refine pushCur_WF (foldl_footersStep_WF ls ⟨[], none⟩ ⟨?_, ?_⟩ hnl)
  · intro f hf
    simp at hf
  · intro t sep segs hc
    cases hc


theorem parseBlocks_facts {r2 bt : Str} {fs : List Footer}
    (h : parseBlocks r2 = (bt, fs)) :
    (bt ≠ [] → footerStart (splitNl bt).headI = none ∧
      findBoundary (splitNl bt) = none) ∧
    ∀ f ∈ fs, WFFooter f := by
  simp only [parseBlocks] at h
  split at h
  · injection h with h1 h2
    subst h1
    subst h2
    refine ⟨fun hne => absurd rfl hne, ?_⟩
    exact parseFootersLines_WF _ (mem_splitNl_no_nl r2)
  · rename_i hns
    split at h
    · rename_i i hfb
      injection h with h1 h2
      subst h1
      subst h2
      constructor
      · intro hne
        have htne : (splitNl r2).take i ≠ [] := by
          intro he
          rw [he] at hne
          exact hne rfl
        have hsp : splitNl (joinNl ((splitNl r2).take i)) =
            (splitNl r2).take i :=
          splitNl_joinNl _ htne (fun l hl =>
            mem_splitNl_no_nl r2 l (List.Sublist.mem hl (List.take_sublist _ _)))
        rw [hsp]
        constructor
        · have hh : ((splitNl r2).take i).headI = (splitNl r2).headI := by
            cases hls : splitNl r2 with
            | nil => rw [hls] at htne; simp at htne
            | cons a as =>
              cases i with
              | zero => exact absurd rfl htne
              | succ n => rfl
          rw [hh]
          cases hfsv : footerStart (splitNl r2).headI with
          | none => rfl
          | some v => rw [hfsv] at hns; simp at hns
        · exact findBoundary_take _ i hfb
      · exact parseFootersLines_WF _ (fun l hl =>
          mem_splitNl_no_nl r2 l (List.Sublist.mem hl (List.drop_sublist _ _)))
    · rename_i hfb
      injection h with h1 h2
      subst h1
      subst h2
      refine ⟨fun hne => ⟨?_, hfb⟩, fun f hf => absurd hf (List.not_mem_nil f)⟩
      cases hfsv : footerStart (splitNl r2).headI with
      | none => rfl
      | some v => rw [hfsv] at hns; simp at hns

theorem wf_buildCommit {m : MsgAst}
    (hsum : (m.sum.ctype ≠ [] ∧ ∀ ch ∈ m.sum.ctype, typeChar ch = true) ∧
      (∀ sc, m.sum.scopeRaw = some sc → ∀ ch ∈ sc, scopeChar ch = true) ∧
      (m.sum.content ≠ [] ∧ ∀ ch ∈ m.sum.content, ch ≠ '\n'))
    (hbody : m.bodyTxt ≠ [] → footerStart (splitNl m.bodyTxt).headI = none ∧
      findBoundary (splitNl m.bodyTxt) = none)
    (hfoot : ∀ f ∈ m.footers, WFFooter f) :
    WF (buildCommit m) := by
  have htr := typeRoundTrip m.sum.ctype hsum.1.1 hsum.1.2
  rw [buildCommit_eq]
  refine ⟨htr.1, htr.2.1, htr.2.2, ?_, hsum.2.2.1, hsum.2.2.2, ?_, hfoot, ?_⟩
  · intro s hs
    have hs2 : (match m.sum.scopeRaw with
        | some s => if s = [] then none else some s
        | none => (none : Option Str)) = some s := hs
    cases hraw : m.sum.scopeRaw with
    | none => rw [hraw] at hs2; cases hs2
    | some s0 =>
      rw [hraw] at hs2
      have hs3 : (if s0 = [] then none else some s0) = some s := hs2
      by_cases h0 : s0 = []
      · rw [if_pos h0] at hs3
        cases hs3
      · rw [if_neg h0] at hs3
        injection hs3 with hs4
        subst hs4
        exact ⟨h0, hsum.2.1 s0 hraw⟩
  · intro b hb
    have hb2 : (if m.bodyTxt = [] then none else some m.bodyTxt) = some b := hb
    by_cases he : m.bodyTxt = []
    · rw [if_pos he] at hb2
      cases hb2
    · rw [if_neg he] at hb2
      injection hb2 with hb3
      subst hb3
      exact ⟨he, (hbody he).1, (hbody he).2⟩
  · intro ha
    have ha2 : m.footers.any Footer.is_breaking_change = true := ha
    show (m.sum.marker || m.footers.any Footer.is_breaking_change) = true
    rw [ha2, Bool.or_true]

/-- Every commit produced by a successful parse satisfies the round-trip
invariants. -/
theorem wf_of_parse {s : Str} {c : ConventionalCommit}
    (h : parse s = Except.ok c) : WF c := by
  rcases parse_ok_iff.mp h with ⟨m, hpm, hc⟩
  subst hc
  unfold parseMessage at hpm
  split at hpm
  · cases hpm
  · rename_i sum rest hps
    have hsf := parseSummary_ok_facts hps
    split at hpm
    · injection hpm with h2
      subst h2
      exact wf_buildCommit hsf (fun hne => absurd rfl hne)
        (fun f hf => absurd hf (List.not_mem_nil f))
    · injection hpm with h2
      subst h2
      exact wf_buildCommit hsf (fun hne => absurd rfl hne)
        (fun f hf => absurd hf (List.not_mem_nil f))
    · rename_i r2
      injection hpm with h2
      subst h2
      have hpb := @parseBlocks_facts r2 (parseBlocks r2).1 (parseBlocks r2).2 rfl
      exact wf_buildCommit hsf hpb.1 hpb.2
    · cases hpm


/-! ## The round-trip claim -/

theorem colonSeparators_eq_self (fs : List Footer)
    (h : ∀ f ∈ fs, f.token_separator = Separator.Colon) :
    colonSeparators fs = fs := by
  induction fs with
  | nil => rfl
  | cons f fs ih =>
    have hf : ({ f with token_separator := Separator.Colon } : Footer) = f := by
      cases f
      simp_all
    show ({ f with token_separator := Separator.Colon } : Footer) ::
      colonSeparators fs = f :: fs
    rw [hf, ih (fun g hg => h g (List.mem_cons_of_mem f hg))]

theorem normalizeSeps_eq_self (c : ConventionalCommit)
    (h : ∀ f ∈ c.footers, f.token_separator = Separator.Colon) :
    normalizeSeps c = c := by
  unfold normalizeSeps
  rw [colonSeparators_eq_self c.footers h]

/-- Whether the text parses successfully and the parsed commit serializes to a
text that re-parses to exactly the same commit. -/
def roundTripsExactly (s : Str) : Bool :=
  match parse s with
  | Except.ok c => decide (parse c.to_string = Except.ok c)
  | Except.error _ => false

/-- The commit parsed from a message carrying a hash-separated footer. -/
def hashFooterCommit : ConventionalCommit :=
  { commit_type := CommitType.Feature, scope := none, summary := "a".data,
    body := none,
    footers := [{ token := "t-tok".data, content := "v".data,
                  token_separator := Separator.Hash }],
    is_breaking_change := false }

/-- C1 counterexample: a message with a hash-separated footer parses
successfully, but serializing the parsed commit and re-parsing yields a
commit with a colon-space footer separator, not a value equal to the
original commit. -/
theorem c1_counterexample :
    parse ("feat: a\n\nt-tok #v".data) = Except.ok hashFooterCommit ∧
      parse hashFooterCommit.to_string ≠ Except.ok hashFooterCommit := by
  exact ⟨by decide, by decide⟩

/-- C1 (amended): for every text whose parse succeeds with commit `c`,
serializing `c` with `to_string` and re-parsing succeeds and yields `c` with
every footer separator kind normalized to the colon-space form; the result
equals `c` exactly whenever every footer separator of `c` already is the
colon-space form, and in particular on the cited type-only, scoped
breaking-marker, and body-with-multiple-footers shapes. -/
theorem c1_round_trip :
    (∀ s c, parse s = Except.ok c →
      parse c.to_string = Except.ok (normalizeSeps c)) ∧
    (∀ s c, parse s = Except.ok c →
      (∀ f ∈ c.footers, f.token_separator = Separator.Colon) →
      parse c.to_string = Except.ok c) ∧
    roundTripsExactly ("feat: a feature".data) = true ∧
    roundTripsExactly ("chore(scope)!: this is a breaking change".data) = true ∧
    roundTripsExactly ("fix(code): correct minor typos in code\n\nsee the issue for details\n\non typos fixed.\n\nReviewed-by: Z\nRefs: 133".data) = true := by
  refine ⟨fun s c h => parse_to_string_of_WF c (wf_of_parse h),
    fun s c h hsep => ?_, by decide, by decide, by decide⟩
  have hrt := parse_to_string_of_WF c (wf_of_parse h)
  rw [normalizeSeps_eq_self c hsep] at hrt
  exact hrt

/-- A concrete type-only commit instantiating the round-trip theorem. -/
def feat0 : ConventionalCommit :=
  { commit_type := CommitType.Feature, scope := none,
    summary := "a feature".data, body := none, footers := [],
    is_breaking_change := false }

theorem c1_witness :
    parse ("feat: a feature".data) = Except.ok feat0 ∧
      parse feat0.to_string = Except.ok feat0 :=
  ⟨by decide, c1_round_trip.2.1 ("feat: a feature".data) feat0 (by decide)
    (by decide)⟩

/-! ## C8: pseudo-footer lines are absorbed, not errors -/

theorem sepSplit_cons_none (c y : Char) (r : Str) (hc : c ≠ ':')
    (hy : y ≠ '#') : sepSplit (c :: y :: r) = none := by
  unfold sepSplit
  split
  · rename_i heq
    injection heq with h1 h2
    exact absurd h1 hc
  · rename_i heq
    injection heq with h1 h2
    cases h2
  · rename_i heq
    injection heq with h1 h2
    injection h2 with h3 h4
    exact absurd h3 hy
  · rfl

/-- A word whose characters include whitespace but no `:` or `#` never reaches
a separator form: the separator check fails at the first whitespace. -/
theorem sepSplit_dropWhile_none (t v : Str) :
    (∃ w ∈ t, isWsp w = true) → (∀ ch ∈ t, ch ≠ ':' ∧ ch ≠ '#') →
    sepSplit ((t ++ ':' :: v).dropWhile tokenChar) = none := by
  induction t with
  | nil =>
    intro hws hns
    rcases hws with ⟨w, hw, _⟩
    exact absurd hw (List.not_mem_nil w)
  | cons c t2 ih =>
    intro hws hns
    rw [List.cons_append, List.dropWhile_cons]
    cases htc : tokenChar c with
    | true =>
      rw [if_pos rfl]
      apply ih
      · rcases hws with ⟨w, hw, hwsp⟩
        rcases List.mem_cons.mp hw with h | h
        · subst h
          simp [tokenChar, hwsp] at htc
        · exact ⟨w, h, hwsp⟩
      · exact fun ch hch => hns ch (List.mem_cons_of_mem c hch)
    | false =>
      rw [if_neg Bool.false_ne_true]
      have hcset := hns c (List.mem_cons_self _ _)
      cases t2 with
      | nil => exact sepSplit_cons_none c ':' v hcset.1 (by decide)
      | cons c2 t3 =>
        rw [List.cons_append]
        exact sepSplit_cons_none c c2 (t3 ++ ':' :: v) hcset.1
          (hns c2 (by simp)).2

/-- When no line begins a footer there is no body/footer boundary. -/
theorem findBoundary_none_of_no_footer (ls : List Str) :
    (∀ l ∈ ls, footerStart l = none) → findBoundary ls = none := by
  induction ls with
  | nil => intro h; rfl
  | cons a rest ih =>
    intro h
    cases rest with
    | nil => rfl
    | cons b r2 =>
      have hcond : ¬(a = [] ∧ (footerStart b).isSome = true) := by
        intro hc
        rw [h b (by simp)] at hc
        simp at hc
      unfold findBoundary
      rw [if_neg hcond, ih (fun l hl => h l (List.mem_cons_of_mem a hl))]
      rfl

theorem headI_mem_splitNl (r : Str) : (splitNl r).headI ∈ splitNl r := by
  cases h : splitNl r with
  | nil => exact absurd h (splitNl_ne_nil r)
  | cons a as => exact List.mem_cons_self _ _

/-- C8: a line of footer shape whose token portion contains whitespace but no
`:` or `#` — in particular one led by the lowercase `breaking change` token —
never begins a footer; and the parse never fails on lines that begin no
footer: when no footer has started the whole block containing them becomes
the body, and once a footer has started they are absorbed into that footer's
content; including the cited concrete inputs. -/
theorem c8_pseudo_footer_absorption :
    (∀ t v : Str, (∃ w ∈ t, isWsp w = true) →
      (∀ ch ∈ t, ch ≠ ':' ∧ ch ≠ '#') →
      List.take 15 (t ++ ':' :: v) ≠ "BREAKING CHANGE".data →
      footerStart (t ++ ':' :: v) = none) ∧
    (∀ v : Str, footerStart ("breaking change".data ++ ':' :: v) = none) ∧
    (∀ (s : Str) (sum : SummaryAst) (r2 : Str),
      parseSummary s = Except.ok (sum, '\n' :: '\n' :: r2) →
      (∀ l ∈ splitNl r2, footerStart l = none) →
      parse s = Except.ok (buildCommit ⟨sum, r2, []⟩)) ∧
    (∀ (s : Str) (sum : SummaryAst) (r2 l0 : Str) (ls : List Str)
      (tok seg : Str),
      parseSummary s = Except.ok (sum, '\n' :: '\n' :: r2) →
      splitNl r2 = l0 :: ls →
      footerStart l0 = some (tok, Separator.Colon, seg) →
      (∀ l ∈ ls, footerStart l = none) →
      parse s = Except.ok (buildCommit ⟨sum, [],
        [{ token := tok, content := joinNl (seg :: ls),
           token_separator := Separator.Colon }]⟩)) ∧
    parse "chore: a commit\n\nThis is a body\n\ninvalid token : this is a token".data =
      Except.ok
        { commit_type := CommitType.Chore, scope := none,
          summary := "a commit".data,
          body := some "This is a body\n\ninvalid token : this is a token".data,
          footers := [], is_breaking_change := false } ∧
    parse "chore: a commit\n\nthe body\n\nbreaking change: oops".data =
      Except.ok
        { commit_type := CommitType.Chore, scope := none,
          summary := "a commit".data,
          body := some "the body\n\nbreaking change: oops".data,
          footers := [], is_breaking_change := false } ∧
    parse "chore: a commit\n\nBREAKING CHANGE: a long message that describe a footer\nwith multiple new line\nanother-footer: with content".data =
      Except.ok
        { commit_type := CommitType.Chore, scope := none,
          summary := "a commit".data, body := none,
          footers :=
            [{ token := "BREAKING CHANGE".data,
               content := "a long message that describe a footer\nwith multiple new line".data,
               token_separator := Separator.Colon },
             { token := "another-footer".data, content := "with content".data,
               token_separator := Separator.Colon }],
          is_breaking_change := true } ∧
    parse "chore: a commit\n\nBREAKING CHANGE: msg\nbreaking change: oops".data =
      Except.ok
        { commit_type := CommitType.Chore, scope := none,
          summary := "a commit".data, body := none,
          footers :=
            [{ token := "BREAKING CHANGE".data,
               content := "msg\nbreaking change: oops".data,
               token_separator := Separator.Colon }],
          is_breaking_change := true } := by
  have hmain : ∀ t v : Str, (∃ w ∈ t, isWsp w = true) →
      (∀ ch ∈ t, ch ≠ ':' ∧ ch ≠ '#') →
      List.take 15 (t ++ ':' :: v) ≠ "BREAKING CHANGE".data →
      footerStart (t ++ ':' :: v) = none := by
    intro t v hws hns hbc
    unfold footerStart
    rw [if_neg hbc]
    unfold wordFooterStart
    by_cases h0 : (t ++ ':' :: v).takeWhile tokenChar = []
    · rw [if_pos h0]
    · rw [if_neg h0, sepSplit_dropWhile_none t v hws hns]
  refine ⟨hmain, fun v => hmain "breaking change".data v
      ⟨' ', by decide, by decide⟩ (by decide) ?_,
    ?_, ?_, by decide, by decide, by decide, by decide⟩
  · rw [(by decide : (15 : Nat) = ("breaking change".data).length),
      List.take_left]
    decide
  · intro s sum r2 hps hnf
    exact parse_eq_build (parseMessage_eq_blocks hps
      (parseBlocks_ser_bodyOnly r2 (hnf _ (headI_mem_splitNl r2))
        (findBoundary_none_of_no_footer _ hnf)))
  · intro s sum r2 l0 ls tok seg hps hsp hl0 hls
    have hpf : parseFootersLines (l0 :: ls) =
        [{ token := tok, content := joinNl (seg :: ls),
           token_separator := Separator.Colon }] := by
      unfold parseFootersLines
      rw [List.foldl_cons]
      have h1 : footersStep ⟨[], none⟩ l0 =
          ⟨[], some (tok, Separator.Colon, [seg])⟩ := by
        unfold footersStep
        rw [hl0]
        rfl
      rw [h1, foldl_footersStep_absorb ls hls [] tok Separator.Colon [seg],
        List.singleton_append]
      rfl
    have hpb : parseBlocks r2 = ([],
        [{ token := tok, content := joinNl (seg :: ls),
           token_separator := Separator.Colon }]) := by
      simp only [parseBlocks]
      rw [hsp]
      rw [if_pos (show (footerStart (l0 :: ls).headI).isSome = true by
        show (footerStart l0).isSome = true
        rw [hl0]
        rfl)]
      rw [hpf]
    exact parse_eq_build (parseMessage_eq_blocks hps hpb)

/-- C8 witness: the universal parts applied to the cited whitespace-token
line, to a message whose block is only the lowercase `breaking change`
pseudo-footer line (absorbed into the body), and to a message where that
line follows a started footer (absorbed into that footer's content). -/
theorem c8_witness :
    footerStart ("invalid token ".data ++ ':' :: " this is a token".data) =
      none ∧
    parse "chore: a commit\n\nbreaking change: oops".data =
      Except.ok (buildCommit ⟨⟨"chore".data, none, false, "a commit".data⟩,
        "breaking change: oops".data, []⟩) ∧
    parse "chore: a commit\n\nBREAKING CHANGE: msg\nbreaking change: oops".data =
      Except.ok (buildCommit ⟨⟨"chore".data, none, false, "a commit".data⟩, [],
        [{ token := "BREAKING CHANGE".data,
           content := joinNl ("msg".data :: ["breaking change: oops".data]),
           token_separator := Separator.Colon }]⟩) :=
  ⟨c8_pseudo_footer_absorption.1 "invalid token ".data " this is a token".data
     (by decide) (by decide) (by decide),
   c8_pseudo_footer_absorption.2.2.1
     "chore: a commit\n\nbreaking change: oops".data
     ⟨"chore".data, none, false, "a commit".data⟩
     "breaking change: oops".data (by decide) (by decide),
   c8_pseudo_footer_absorption.2.2.2.1
     "chore: a commit\n\nBREAKING CHANGE: msg\nbreaking change: oops".data
     ⟨"chore".data, none, false, "a commit".data⟩
     "BREAKING CHANGE: msg\nbreaking change: oops".data
     "BREAKING CHANGE: msg".data ["breaking change: oops".data]
     "BREAKING CHANGE".data "msg".data
     (by decide) (by decide) (by decide) (by decide)⟩

end ConvCommit
